import Mathlib

/-!
# i2cbusses.c: enumeration of I2C adapters

A shallow embedding of `tools/i2cbusses.c` and the properties of its
bus-number parser, device-node opener, adapter discovery (legacy
`/proc/bus/i2c` file and sysfs walk) and renderer.

Conventions of the embedding:

* a C string is the list of its characters before the terminating NUL;
  the bytes of a file are a list of characters that may contain NUL, and
  `cstr` gives the C string a buffer holding them denotes;
* `int` and `long` values are mathematical integers, with the conversions
  that can change a value written out (`toInt32`, `clampLong`);
* the operating system is a parameter: the result of `open` on a path, the
  result of the capability `ioctl` on a handle, the contents of the files
  and directories that are read;
* output is the list of the `printf`/`fprintf` calls made, each with its
  stream and its text; system calls are listed the same way.
-/

namespace I2CBusses

/-! ## C library: characters, `strtol`, `sscanf`, `printf` -/

/-- The string a NUL-terminated buffer denotes: the bytes before the first NUL. -/
def cstr (buf : List Char) : List Char :=
  buf.takeWhile (fun c => c ≠ '\x00')

/-- The `isspace` of the C locale: space, `\t`, `\n`, `\v`, `\f`, `\r`. -/
def isspace (c : Char) : Bool :=
  c = ' ' || c = '\t' || c = '\n' || c = '\x0b' || c = '\x0c' || c = '\r'

/-- Value of a character as a digit of `strtol`: `0-9`, then letters from 10. -/
def digitVal (c : Char) : Option Nat :=
  if 48 ≤ c.toNat ∧ c.toNat ≤ 57 then some (c.toNat - 48)
  else if 97 ≤ c.toNat ∧ c.toNat ≤ 122 then some (c.toNat - 97 + 10)
  else if 65 ≤ c.toNat ∧ c.toNat ≤ 90 then some (c.toNat - 65 + 10)
  else none

/-- Whether `c` is a digit of the given base. -/
def isDigitOf (base : Nat) (c : Char) : Bool :=
  match digitVal c with
  | some d => decide (d < base)
  | none => false

/-- The value of a run of digits in `base`, most significant first. -/
def digitsValue (base : Nat) (ds : List Char) : Nat :=
  ds.foldl (fun acc c => acc * base + (digitVal c).getD 0) 0

/-- The largest `long` (LP64). -/
def LONG_MAX : Int := 9223372036854775807

/-- The smallest `long` (LP64). -/
def LONG_MIN : Int := -9223372036854775808

/-- The `long` that `strtol` returns for a sign and a magnitude: the signed
value, or `LONG_MAX`/`LONG_MIN` when it does not fit. -/
def clampLong (neg : Bool) (mag : Nat) : Int :=
  if neg then
    if (mag : Int) > 9223372036854775808 then LONG_MIN else -(mag : Int)
  else
    if (mag : Int) > LONG_MAX then LONG_MAX else (mag : Int)

/-- Conversion of an integer to `int` (32 bits, two's complement). -/
def toInt32 (v : Int) : Int :=
  (v + 2147483648) % 4294967296 - 2147483648

/-- The unread input after leading white space. -/
def skipSpace (s : List Char) : List Char :=
  s.dropWhile isspace

/-- An optional sign at the head of the input: whether it is `-`, and the rest. -/
def scanSign (s : List Char) : Bool × List Char :=
  match s with
  | [] => (false, [])
  | c :: r => if c = '-' then (true, r) else if c = '+' then (false, r) else (false, c :: r)

/-- The base `strtol` chooses when called with base 0, and the input from which
the digits are read: 16 after `0x`/`0X` followed by a hexadecimal digit, 8 when
the input starts with `0` (which is then itself the first digit), 10 otherwise. -/
def scanBase (s : List Char) : Nat × List Char :=
  match s with
  | [] => (10, [])
  | c :: r =>
    if c = '0' then
      match r with
      | x :: h :: t =>
        if (x = 'x' ∨ x = 'X') ∧ isDigitOf 16 h = true then (16, h :: t) else (8, c :: r)
      | _ => (8, c :: r)
    else (10, c :: r)

/-- The call `strtol(nptr, &end, 0)`: the value returned and the string `end`
points to. The subject is the longest run of digits of the chosen base; without
any digit the value is 0 and `end` is `nptr`. -/
def strtol (nptr : List Char) : Int × List Char :=
  let sg := scanSign (skipSpace nptr)
  let bs := scanBase sg.2
  let ds := bs.2.takeWhile (isDigitOf bs.1)
  if ds = [] then (0, nptr)
  else (clampLong sg.1 (digitsValue bs.1 ds), bs.2.dropWhile (isDigitOf bs.1))

/-- Decimal digits of `n`, most significant first, pushed in front of `acc`;
`fuel` bounds the number of digits produced. -/
def natDigitsAux : Nat → Nat → List Char → List Char
  | 0, _, acc => acc
  | fuel + 1, n, acc =>
    if n / 10 = 0 then Char.ofNat (48 + n % 10) :: acc
    else natDigitsAux fuel (n / 10) (Char.ofNat (48 + n % 10) :: acc)

/-- The decimal numeral of a natural number. -/
def natDigits (n : Nat) : List Char :=
  natDigitsAux (n + 1) n []

/-- The text `printf` produces for `%d`. -/
def fmt_d (v : Int) : List Char :=
  if v < 0 then '-' :: natDigits v.natAbs else natDigits v.natAbs

/-- A converted item placed in a field of minimum width `w`: padded with
spaces on the right when left-justified (`-` flag), on the left otherwise,
and never truncated. -/
def padField (left : Bool) (w : Nat) (s : List Char) : List Char :=
  if left then s ++ List.replicate (w - s.length) ' '
  else List.replicate (w - s.length) ' ' ++ s

/-- An argument of `printf`. -/
inductive Arg where
  | int (v : Int)
  | str (s : List Char)
  deriving DecidableEq, Repr

/-- Where the interpreter of a format string stands: in ordinary text, or inside
a conversion specification after `%`, with the `-` flag and the width read so far. -/
inductive FmtState where
  | text
  | spec (left : Bool) (width : Nat)
  deriving DecidableEq, Repr

/-- The text `printf` produces for a format using ordinary characters and the
conversions `%d` and `%s` with an optional `-` flag and width, which are the ones
of this program. A conversion without a matching argument ends the output. -/
def format : FmtState → List Char → List Arg → List Char
  | _, [], _ => []
  | FmtState.text, c :: fs, args =>
    if c = '%' then format (FmtState.spec false 0) fs args
    else c :: format FmtState.text fs args
  | FmtState.spec left w, c :: fs, args =>
    if c = '-' then format (FmtState.spec true w) fs args
    else if isDigitOf 10 c = true then
      format (FmtState.spec left (w * 10 + (digitVal c).getD 0)) fs args
    else if c = 'd' then
      match args with
      | Arg.int v :: rest => padField left w (fmt_d v) ++ format FmtState.text fs rest
      | _ => []
    else if c = 's' then
      match args with
      | Arg.str t :: rest => padField left w t ++ format FmtState.text fs rest
      | _ => []
    else []

/-- The call `sprintf(buf, fmt, args...)`: the string left in `buf`. -/
def sprintf (fmt : String) (args : List Arg) : List Char :=
  format FmtState.text fmt.toList args

/-- Outcome of matching ordinary characters of a `scanf` format against the
input: the unread input, a mismatch, or the end of the input. -/
inductive LitMatch where
  | rest (input : List Char)
  | mismatch
  | eof
  deriving DecidableEq, Repr

/-- Matching the ordinary (non-space) characters `lit` of a `scanf` format: each
must equal the next input character; the input ending first is an input failure. -/
def match_literal : List Char → List Char → LitMatch
  | [], input => LitMatch.rest input
  | _ :: _, [] => LitMatch.eof
  | l :: ls, c :: cs => if c = l then match_literal ls cs else LitMatch.mismatch

/-- Result of a `sscanf` call with one conversion: input failure before the
conversion (`EOF`, -1), matching failure (0), or one item assigned (1). -/
inductive ScanResult where
  | eof
  | nomatch
  | assigned (v : Int)
  deriving DecidableEq, Repr

/-- The value `sscanf` returns. -/
def ScanResult.ret : ScanResult → Int
  | ScanResult.eof => -1
  | ScanResult.nomatch => 0
  | ScanResult.assigned _ => 1

/-- The conversion `%d` into an `int`: white space is skipped, then an optional
sign and the longest run of decimal digits are read. The input ending before any
character of the item is an input failure; no digit is a matching failure. The
value is converted as by `strtol` and stored in the `int`. -/
def scan_d (input : List Char) : ScanResult :=
  let s1 := skipSpace input
  if s1 = [] then ScanResult.eof
  else
    let sg := scanSign s1
    let ds := sg.2.takeWhile (isDigitOf 10)
    if ds = [] then ScanResult.nomatch
    else ScanResult.assigned (toInt32 (clampLong sg.1 (digitsValue 10 ds)))

/-- The call `sscanf(str, "i2c-%d", &i2cbus)`. -/
def sscanf_i2c_d (str : List Char) : ScanResult :=
  match match_literal "i2c-".toList str with
  | LitMatch.rest input => scan_d input
  | LitMatch.mismatch => ScanResult.nomatch
  | LitMatch.eof => ScanResult.eof

/-- The test `strncmp(a, b, n) == 0` on C strings. -/
def strncmp_eq (a b : List Char) (n : Nat) : Bool :=
  a.take n == b.take n

/-- The call `p = strrchr(s, c); *(p++) = 0`: the string left in `s` (before the
last `c`) and the string `p` (after it); `none` when `c` does not occur, where
`p` is NULL and the store is undefined. -/
def strrchr_split (c : Char) : List Char → Option (List Char × List Char)
  | [] => none
  | x :: xs =>
    match strrchr_split c xs with
    | some (a, b) => some (x :: a, b)
    | none => if x = c then some ([], xs) else none

/-- The characters `fgets` stores when at most `room` may be read: up to and
including the first newline; with them, the rest of the stream. -/
def fgets_take : Nat → List Char → List Char × List Char
  | 0, s => ([], s)
  | _ + 1, [] => ([], [])
  | room + 1, c :: cs =>
    if c = '\n' then ([c], cs)
    else ((fgets_take room cs).1.cons c, (fgets_take room cs).2)

/-- The call `fgets(buf, size, f)` on a stream with the given unread bytes:
`none` (NULL) at end of file, else the bytes stored and the unread rest. -/
def fgets (size : Nat) (stream : List Char) : Option (List Char × List Char) :=
  if stream = [] then none else some (fgets_take (size - 1) stream)

/-! ## Output and system calls -/

/-- The two output streams of the program. -/
inductive OutStream where
  | stdout
  | stderr
  deriving DecidableEq, Repr

/-- One `printf`/`fprintf` call: the stream and the text written. -/
abbrev Output := OutStream × List Char

/-- The result of `open(path, O_RDWR)`: a handle, or -1 with `errno` set. -/
inductive OpenResult where
  | ok (fd : Nat)
  | err (errno : Nat)
  deriving DecidableEq, Repr

/-- The system calls of the device-node helpers. -/
inductive Syscall where
  | sys_open (path : List Char)
  | sys_ioctl_funcs (fd : Nat)
  | sys_close (fd : Nat)
  deriving DecidableEq, Repr

/-- The `errno` of a missing path. -/
def ENOENT : Nat := 2

/-- The `errno` of a permission failure. -/
def EACCES : Nat := 13

/-! ## `lookup_i2c_bus` -/

/-- The diagnostic of an argument that is not a number. -/
def msg_not_a_number : List Char :=
  "Error: I2CBUS argument not a number!\n".toList

/-- The diagnostic of a number outside 0-255. -/
def msg_out_of_range : List Char :=
  "Error: I2CBUS argument out of range (0-255)!\n".toList

/-- The function `lookup_i2c_bus`: the value returned and the diagnostics. -/
def lookup_i2c_bus (i2cbus_arg : List Char) : Int × List Output :=
  let r := strtol i2cbus_arg
  let i2cbus := r.1
  let endp := r.2
  if endp ≠ [] ∨ i2cbus_arg = [] then
    (-1, [(OutStream.stderr, msg_not_a_number)])
  else if i2cbus < 0 ∨ i2cbus > 255 then
    (-2, [(OutStream.stderr, msg_out_of_range)])
  else
    (i2cbus, [])

/-! ## `open_i2c_dev` and `i2c_get_funcs` -/

/-- How a run of the code ends: with a result, in undefined behaviour (a store
through NULL, outside the array of adapters, or past the end of a character
buffer), or with the fuel of the model used up. -/
inductive Outcome (α : Type) where
  | done (a : α)
  | undefined
  | out_of_fuel
  deriving DecidableEq, Repr

/-- The operating system as the device-node helpers see it: the result of
`open(path, O_RDWR)`, the result of `ioctl(fd, I2C_FUNCS, &funcs)` (`none` when
it fails, else the flags), and the text of `strerror`. -/
structure World where
  sys_open : List Char → OpenResult
  ioctl_funcs : Nat → Option Nat
  strerror : Nat → List Char

/-- The capability flags of `linux/i2c.h` that the classification tests. -/
structure FuncFlags where
  I2C_FUNC_I2C : Nat
  I2C_FUNC_SMBUS_BYTE : Nat
  I2C_FUNC_SMBUS_BYTE_DATA : Nat
  I2C_FUNC_SMBUS_WORD_DATA : Nat

/-- The value `open` returns: the handle or -1. -/
def OpenResult.file : OpenResult → Int
  | OpenResult.ok fd => (fd : Int)
  | OpenResult.err _ => -1

/-- The value of `errno` after `open`, given its value before. -/
def OpenResult.errno (before : Nat) : OpenResult → Nat
  | OpenResult.ok _ => before
  | OpenResult.err e => e

/-- What a call of `open_i2c_dev` leaves: the value returned, the string in
`filename`, `errno`, the diagnostics and the system calls made. -/
structure OpenDev where
  file : Int
  filename : List Char
  errno : Nat
  out : List Output
  calls : List Syscall
  deriving DecidableEq, Repr

/-- The diagnostics of `open_i2c_dev` for a failed open that is not quiet. -/
def open_diagnostics (W : World) (i2cbus : Int) (filename : List Char) (errno : Nat) :
    List Output :=
  if errno = ENOENT then
    [(OutStream.stderr,
      sprintf "Error: Could not open file `/dev/i2c-%d' or `/dev/i2c/%d': %s\n"
        [Arg.int i2cbus, Arg.int i2cbus, Arg.str (W.strerror ENOENT)])]
  else
    (OutStream.stderr,
      sprintf "Error: Could not open file `%s': %s\n"
        [Arg.str filename, Arg.str (W.strerror errno)]) ::
    (if errno = EACCES then [(OutStream.stderr, "Run as root?\n".toList)] else [])

/-- The function `open_i2c_dev`, with `errno0` the value of `errno` on entry. -/
def open_i2c_dev (W : World) (errno0 : Nat) (i2cbus : Int) (quiet : Int) : OpenDev :=
  let filename1 := sprintf "/dev/i2c/%d" [Arg.int i2cbus]
  let r1 := W.sys_open filename1
  let file1 := r1.file
  let errno1 := r1.errno errno0
  if file1 < 0 ∧ errno1 = ENOENT then
    let filename2 := sprintf "/dev/i2c-%d" [Arg.int i2cbus]
    let r2 := W.sys_open filename2
    let file2 := r2.file
    let errno2 := r2.errno errno1
    { file := file2, filename := filename2, errno := errno2,
      out := if file2 < 0 ∧ quiet = 0 then open_diagnostics W i2cbus filename2 errno2 else [],
      calls := [Syscall.sys_open filename1, Syscall.sys_open filename2] }
  else
    { file := file1, filename := filename1, errno := errno1,
      out := if file1 < 0 ∧ quiet = 0 then open_diagnostics W i2cbus filename1 errno1 else [],
      calls := [Syscall.sys_open filename1] }

/-- The enumeration `adt`. -/
inductive adt where
  | adt_dummy
  | adt_isa
  | adt_i2c
  | adt_smbus
  | adt_unknown
  deriving DecidableEq, Repr

/-- The table `adap_types`, field `funcs`. -/
def adap_types_funcs : adt → List Char
  | adt.adt_dummy => "dummy".toList
  | adt.adt_isa => "isa".toList
  | adt.adt_i2c => "i2c".toList
  | adt.adt_smbus => "smbus".toList
  | adt.adt_unknown => "unknown".toList

/-- The table `adap_types`, field `algo`. -/
def adap_types_algo : adt → List Char
  | adt.adt_dummy => "Dummy bus".toList
  | adt.adt_isa => "ISA bus".toList
  | adt.adt_i2c => "I2C adapter".toList
  | adt.adt_smbus => "SMBus adapter".toList
  | adt.adt_unknown => "N/A".toList

/-- The size of the buffer `char filename[20]` of `i2c_get_funcs`. -/
def FILENAME_SIZE : Nat := 20

/-- Whether a system call is an `open` of a path that, with its NUL, does not
fit `filename`: the `sprintf` that wrote it ran past the end of the buffer. -/
def overflows_filename : Syscall → Bool
  | Syscall.sys_open path => decide (FILENAME_SIZE ≤ path.length)
  | _ => false

/-- The body of `i2c_get_funcs` after the call of `open_i2c_dev`, whose outcome
is `o`: the class and the system calls made. -/
def funcs_class (W : World) (F : FuncFlags) (o : OpenDev) : adt × List Syscall :=
  if o.file < 0 then (adt.adt_unknown, o.calls)
  else
    let fd := o.file.toNat
    let ret :=
      match W.ioctl_funcs fd with
      | none => adt.adt_unknown
      | some funcs =>
        if funcs &&& F.I2C_FUNC_I2C ≠ 0 then adt.adt_i2c
        else if funcs &&& (F.I2C_FUNC_SMBUS_BYTE ||| F.I2C_FUNC_SMBUS_BYTE_DATA |||
            F.I2C_FUNC_SMBUS_WORD_DATA) ≠ 0 then adt.adt_smbus
        else adt.adt_dummy
    (ret, o.calls ++ [Syscall.sys_ioctl_funcs fd, Syscall.sys_close fd])

/-- The function `i2c_get_funcs`: the class and the system calls made. Each path
`open_i2c_dev` opens was written by `sprintf` into `char filename[20]`; when one
does not fit, the behaviour is undefined. -/
def i2c_get_funcs (W : World) (F : FuncFlags) (errno0 : Nat) (i2cbus : Int) :
    Outcome (adt × List Syscall) :=
  if (open_i2c_dev W errno0 i2cbus 1).calls.any overflows_filename = true then
    Outcome.undefined
  else Outcome.done (funcs_class W F (open_i2c_dev W errno0 i2cbus 1))

/-! ## The adapter list: `rtrim`, `more_adapters`, storing a record -/

/-- The characters `rtrim` removes: space and newline. -/
def is_pad (c : Char) : Bool :=
  c = ' ' || c = '\n'

/-- The loop of `rtrim`, counting `i + 1`: from `i = k - 1` downwards while
`s[i]` is a space or a newline; the result is `i + 1` when the loop stops. -/
def rtrim_loop (s : List Char) : Nat → Nat
  | 0 => 0
  | i + 1 => if is_pad (s.getD i '\x00') = true then rtrim_loop s i else i + 1

/-- The function `rtrim`: the string left in `s` and the value returned (the new
length including the trailing NUL). -/
def rtrim (s : List Char) : List Char × Int :=
  (s.take (rtrim_loop s s.length), (rtrim_loop s s.length : Int) + 1)

/-- The structure `i2c_adap`; a NULL pointer is `none`. -/
structure i2c_adap where
  nr : Int
  name : Option (List Char)
  funcs : Option (List Char)
  algo : Option (List Char)
  deriving DecidableEq, Repr

/-- A zeroed `i2c_adap`, as `calloc` and `memset` leave it: the terminator. -/
def zero_adap : i2c_adap :=
  { nr := 0, name := none, funcs := none, algo := none }

/-- The constant `BUNCH`. -/
def BUNCH : Nat := 8

/-- The function `more_adapters`, allocation succeeding: the first `n` records
are kept and `BUNCH` zeroed ones follow. With `n` above the size of `adapters`
the records in between would be indeterminate, which is `none` here. -/
def more_adapters (adapters : List i2c_adap) (n : Nat) : Option (List i2c_adap) :=
  if n ≤ adapters.length then some (adapters.take n ++ List.replicate BUNCH zero_adap)
  else none

/-- The variables `adapters` (its length is the allocated size) and `count` of
`gather_i2c_busses`. -/
structure GatherState where
  adapters : List i2c_adap
  count : Nat
  deriving DecidableEq, Repr

/-- The state after `calloc(BUNCH, sizeof(struct i2c_adap))` and `count = 0`. -/
def init_state : GatherState :=
  { adapters := List.replicate BUNCH zero_adap, count := 0 }

/-- The tail of both discovery loops: grow when `(count + 1) % BUNCH == 0`,
store the record at `adapters[count]`, increment `count`. A store outside the
allocated size is `none`. -/
def store_adapter (st : GatherState) (r : i2c_adap) : Option GatherState :=
  match (if (st.count + 1) % BUNCH = 0 then more_adapters st.adapters (st.count + 1)
         else some st.adapters) with
  | none => none
  | some adapters =>
    if st.count < adapters.length then
      some { adapters := adapters.set st.count r, count := st.count + 1 }
    else none

/-- Storing a sequence of records, one after the other. -/
def store_all : GatherState → List i2c_adap → Option GatherState
  | st, [] => some st
  | st, r :: rs =>
    match store_adapter st r with
    | none => none
    | some st1 => store_all st1 rs

/-! ## `gather_i2c_busses`: the legacy file -/

/-- The body of the legacy loop up to the `sscanf`, for the line in `s`: the
record to store. `indet` is the value of the uninitialised `i2cbus` when the
scan assigns nothing; `none` when one of the three `strrchr` finds no tab. -/
def legacy_line (indet : Int) (s : List Char) : Option i2c_adap :=
  match strrchr_split '\t' (cstr s) with
  | none => none
  | some (s1, algo) =>
    match strrchr_split '\t' s1 with
    | none => none
    | some (s2, name) =>
      match strrchr_split '\t' s2 with
      | none => none
      | some (s3, type) =>
        some { nr := match sscanf_i2c_d s3 with
                     | ScanResult.assigned v => v
                     | _ => indet,
               name := some (rtrim name).1,
               funcs := some (rtrim type).1,
               algo := some (rtrim algo).1 }

/-- The loop `while (fgets(s, 100, fptr))` over the unread bytes of
`/proc/bus/i2c`. Each turn reads at least one byte, so `fuel` above the number
of bytes is never used up. `indet n` is the indeterminate value of `i2cbus` in
the turn that starts with `count = n`. -/
def legacy_loop (indet : Nat → Int) : Nat → List Char → GatherState → Outcome GatherState
  | 0, _, _ => Outcome.out_of_fuel
  | fuel + 1, stream, st =>
    match fgets 100 stream with
    | none => Outcome.done st
    | some (s, rest) =>
      match legacy_line (indet st.count) s with
      | none => Outcome.undefined
      | some r =>
        match store_adapter st r with
        | none => Outcome.undefined
        | some st1 => legacy_loop indet fuel rest st1

/-- The legacy path of `gather_i2c_busses`, for the bytes of `/proc/bus/i2c`. -/
def gather_legacy (indet : Nat → Int) (content : List Char) : Outcome GatherState :=
  legacy_loop indet (content.length + 1) content init_state

/-! ## `gather_i2c_busses`: sysfs -/

/-- One entry of `<sysfs>/class/i2c-dev` as the loop reads it: its name, the
bytes of `<entry>/name` and of `<entry>/device/name` when they open, and the
entries of `<entry>/device` when it opens, each with the bytes of its `name`
file when that opens. -/
structure SysfsEntry where
  d_name : List Char
  name_file : Option (List Char)
  device_name_file : Option (List Char)
  device_dir : Option (List (List Char × Option (List Char)))
  deriving DecidableEq, Repr

/-- The constant `NAME_MAX` of `limits.h` (Linux), the size of the buffer
`char n[NAME_MAX]` the paths are built in. -/
def NAME_MAX : Nat := 255

/-- Whether a path, with its NUL, does not fit `n`: the `sprintf` that writes it
runs past the end of the buffer. -/
def overflows_n (path : List Char) : Bool :=
  decide (NAME_MAX ≤ path.length)

/-- The inner loop over `<entry>/device`: the first child whose name starts with
`i2c-` and whose `name` file opens; the path in `n` and the bytes of the file.
The path of each such child is written into `n` before the `fopen`; the
behaviour is undefined when it does not fit. -/
def find_child (sysfs d_name : List Char) :
    List (List Char × Option (List Char)) → Outcome (Option (List Char × List Char))
  | [] => Outcome.done none
  | (dd_name, f) :: rest =>
    if dd_name = ".".toList then find_child sysfs d_name rest
    else if dd_name = "..".toList then find_child sysfs d_name rest
    else if strncmp_eq dd_name "i2c-".toList 4 = true then
      if overflows_n (sprintf "%s/%s/device/%s/name"
          [Arg.str sysfs, Arg.str d_name, Arg.str dd_name]) = true then Outcome.undefined
      else
        match f with
        | some bytes =>
          Outcome.done (some (sprintf "%s/%s/device/%s/name"
            [Arg.str sysfs, Arg.str d_name, Arg.str dd_name], bytes))
        | none => find_child sysfs d_name rest
    else find_child sysfs d_name rest

/-- The three attempts to open the name of an entry, up to the label `found`:
the path in `n` and the bytes of the file `f`, or `none` when `f` is NULL or the
entry is left by `continue`. Each attempt first writes its path into `n`; the
behaviour is undefined when it does not fit. -/
def open_name (sysfs : List Char) (e : SysfsEntry) :
    Outcome (Option (List Char × List Char)) :=
  if overflows_n (sprintf "%s/%s/name" [Arg.str sysfs, Arg.str e.d_name]) = true then
    Outcome.undefined
  else
    match e.name_file with
    | some bytes =>
      Outcome.done (some (sprintf "%s/%s/name" [Arg.str sysfs, Arg.str e.d_name], bytes))
    | none =>
      if overflows_n (sprintf "%s/%s/device/name" [Arg.str sysfs, Arg.str e.d_name]) = true
      then Outcome.undefined
      else
        match e.device_name_file with
        | some bytes =>
          Outcome.done
            (some (sprintf "%s/%s/device/name" [Arg.str sysfs, Arg.str e.d_name], bytes))
        | none =>
          if overflows_n (sprintf "%s/%s/device" [Arg.str sysfs, Arg.str e.d_name]) = true
          then Outcome.undefined
          else
            match e.device_dir with
            | none => Outcome.done none
            | some children => find_child sysfs e.d_name children

/-- What one turn of the sysfs loop does besides storing: the record to store
(`none` when the entry is skipped), the diagnostics and the system calls. -/
structure EntryResult where
  record : Option i2c_adap
  out : List Output
  calls : List Syscall
  deriving DecidableEq, Repr

/-- An entry that is skipped silently. -/
def skipped : EntryResult :=
  { record := none, out := [], calls := [] }

/-- The string `x` after `fgets(x, 120, f)` and the cut at the first newline. -/
def read_name (chunk : List Char) : List Char :=
  (cstr chunk).takeWhile (fun c => c ≠ '\n')

/-- The record of an entry of name `x`, bus number `i2cbus` and class `type`,
with the system calls its classification made. -/
def stored_entry (i2cbus : Int) (x : List Char) (probe : adt × List Syscall) :
    EntryResult :=
  { record := some { nr := i2cbus, name := some x,
                     funcs := some (adap_types_funcs probe.1),
                     algo := some (adap_types_algo probe.1) },
    out := [],
    calls := probe.2 }

/-- The body of the sysfs loop for one entry, up to the store. `indet` is the
value of the uninitialised `i2cbus` when the scan assigns nothing. -/
def sysfs_entry (W : World) (F : FuncFlags) (errno0 : Nat) (sysfs : List Char)
    (indet : Int) (e : SysfsEntry) : Outcome EntryResult :=
  if e.d_name = ".".toList then Outcome.done skipped
  else if e.d_name = "..".toList then Outcome.done skipped
  else
    match open_name sysfs e with
    | Outcome.undefined => Outcome.undefined
    | Outcome.out_of_fuel => Outcome.out_of_fuel
    | Outcome.done none => Outcome.done skipped
    | Outcome.done (some (n, bytes)) =>
      match fgets 120 bytes with
      | none =>
        Outcome.done
          { record := none,
            out := [(OutStream.stderr, sprintf "%s: read error\n" [Arg.str n])],
            calls := [] }
      | some (chunk, _) =>
        let x := read_name chunk
        let scan := sscanf_i2c_d e.d_name
        if scan.ret = 0 then Outcome.done skipped
        else
          let i2cbus := match scan with
            | ScanResult.assigned v => v
            | _ => indet
          if strncmp_eq x "ISA ".toList 4 = true then
            Outcome.done (stored_entry i2cbus x (adt.adt_isa, []))
          else
            match i2c_get_funcs W F errno0 i2cbus with
            | Outcome.done probe => Outcome.done (stored_entry i2cbus x probe)
            | Outcome.undefined => Outcome.undefined
            | Outcome.out_of_fuel => Outcome.out_of_fuel

/-- What the discovery leaves: the list, the diagnostics, the system calls. -/
structure Gathered where
  st : GatherState
  out : List Output
  calls : List Syscall
  deriving DecidableEq, Repr

/-- The loop `while ((de = readdir(dir)) != NULL)` over the entries of
`<sysfs>/class/i2c-dev`. -/
def sysfs_loop (W : World) (F : FuncFlags) (errno0 : Nat) (sysfs : List Char)
    (indet : Nat → Int) : List SysfsEntry → Gathered → Outcome Gathered
  | [], g => Outcome.done g
  | e :: es, g =>
    match sysfs_entry W F errno0 sysfs (indet g.st.count) e with
    | Outcome.undefined => Outcome.undefined
    | Outcome.out_of_fuel => Outcome.out_of_fuel
    | Outcome.done r =>
      match r.record with
      | none =>
        sysfs_loop W F errno0 sysfs indet es
          { st := g.st, out := g.out ++ r.out, calls := g.calls ++ r.calls }
      | some a =>
        match store_adapter g.st a with
        | none => Outcome.undefined
        | some st1 =>
          sysfs_loop W F errno0 sysfs indet es
            { st := st1, out := g.out ++ r.out, calls := g.calls ++ r.calls }

/-- The sysfs path of `gather_i2c_busses`, for the entries `readdir` returns. -/
def gather_sysfs (W : World) (F : FuncFlags) (errno0 : Nat) (sysfs : List Char)
    (indet : Nat → Int) (entries : List SysfsEntry) : Outcome Gathered :=
  sysfs_loop W F errno0 sysfs indet entries { st := init_state, out := [], calls := [] }

/-- The files `gather_i2c_busses` reads: the bytes of `/proc/bus/i2c` when it
opens; and the outcome of the steps from the scan of `/proc/mounts` to
`opendir`: the string `sysfs` after `strcat(sysfs, "/class/i2c-dev")` with the
entries `readdir` returns, or `none` when one of these steps fails (`goto done`).
The string is built in `char sysfs[NAME_MAX]`. -/
structure Host where
  proc_bus_i2c : Option (List Char)
  sysfs_dir : Option (List Char × List SysfsEntry)

/-- The function `gather_i2c_busses`, allocation succeeding. The behaviour is
undefined when the `strcat` runs past the end of `sysfs`. -/
def gather_i2c_busses (W : World) (F : FuncFlags) (errno0 : Nat) (indet : Nat → Int)
    (H : Host) : Outcome Gathered :=
  match H.proc_bus_i2c with
  | some content =>
    match gather_legacy indet content with
    | Outcome.done st => Outcome.done { st := st, out := [], calls := [] }
    | Outcome.undefined => Outcome.undefined
    | Outcome.out_of_fuel => Outcome.out_of_fuel
  | none =>
    match H.sysfs_dir with
    | none => Outcome.done { st := init_state, out := [], calls := [] }
    | some (sysfs, entries) =>
      if overflows_n sysfs = true then Outcome.undefined
      else gather_sysfs W F errno0 sysfs indet entries

/-! ## `print_i2c_busses` -/

/-- The text `printf` gives for `%s` with a pointer: the string, or `(null)`
for NULL (glibc). -/
def str_arg (p : Option (List Char)) : Arg :=
  Arg.str (p.getD "(null)".toList)

/-- The header of the human format. -/
def msg_installed : List Char :=
  "  Installed I2C busses:\n".toList

/-- The diagnostic of an empty list in the human format. -/
def msg_no_busses : List Char :=
  ("Error: No I2C busses found!\n" ++ "Be sure you have done 'modprobe i2c-dev'\n" ++
    "and also modprobed your i2c bus drivers\n").toList

/-- The line of one adapter in the `/proc/bus/i2c` format. -/
def proc_line (a : i2c_adap) : List Char :=
  sprintf "i2c-%d\t%-10s\t%-32s\t%s\n"
    [Arg.int a.nr, str_arg a.funcs, str_arg a.name, str_arg a.algo]

/-- The line of one adapter in the human format. -/
def human_line (a : i2c_adap) : List Char :=
  sprintf "    i2c-%d\t%-10s\t%s\n" [Arg.int a.nr, str_arg a.funcs, str_arg a.name]

/-- The loop `for (count = 0; adapters[count].name; count++)` from index
`count` on, over the records from that index: the outputs and the final
`count`; `none` when the loop reads past the array. -/
def print_loop (procfmt : Int) : List i2c_adap → Nat → Option (List Output × Nat)
  | [], _ => none
  | a :: rest, count =>
    match a.name with
    | none => some ([], count)
    | some _ =>
      match print_loop procfmt rest (count + 1) with
      | none => none
      | some (out, n) =>
        some ((if count = 0 ∧ procfmt = 0 then [(OutStream.stderr, msg_installed)] else []) ++
              (if procfmt ≠ 0 then (OutStream.stdout, proc_line a)
               else (OutStream.stderr, human_line a)) :: out, n)

/-- The function `print_i2c_busses` from the return of `gather_i2c_busses` on:
`adapters` is the pointer returned (`none` for NULL). -/
def print_adapters (procfmt : Int) (adapters : Option (List i2c_adap)) :
    Option (List Output) :=
  match adapters with
  | none => some [(OutStream.stderr, "Error: Out of memory!\n".toList)]
  | some a =>
    match print_loop procfmt a 0 with
    | none => none
    | some (out, count) =>
      some (out ++ (if count = 0 ∧ procfmt = 0 then [(OutStream.stderr, msg_no_busses)]
                    else []))

/-- The function `print_i2c_busses`: discovery, then rendering. -/
def print_i2c_busses (W : World) (F : FuncFlags) (errno0 : Nat) (indet : Nat → Int)
    (H : Host) (procfmt : Int) : Outcome (List Output) :=
  match gather_i2c_busses W F errno0 indet H with
  | Outcome.done g =>
    match print_adapters procfmt (some g.st.adapters) with
    | some out => Outcome.done (g.out ++ out)
    | none => Outcome.undefined
  | Outcome.undefined => Outcome.undefined
  | Outcome.out_of_fuel => Outcome.out_of_fuel

/-- The text written to a stream, in order. -/
def text_on (o : OutStream) : List Output → List Char
  | [] => []
  | w :: ws => if w.1 = o then w.2 ++ text_on o ws else text_on o ws

/-! ## Notions of the specification -/

/-- Spec side: the value of a string that is, in its entirety, an integer
literal: `0x`/`0X` and hexadecimal digits, `0` and octal digits, or decimal
digits not starting with `0`. -/
def literal_value (s : List Char) : Option Nat :=
  match s with
  | [] => none
  | c :: r =>
    if c = '0' then
      match r with
      | [] => some 0
      | x :: h =>
        if x = 'x' ∨ x = 'X' then
          if h ≠ [] ∧ h.all (isDigitOf 16) = true then some (digitsValue 16 h) else none
        else if r.all (isDigitOf 8) = true then some (digitsValue 8 r) else none
    else if (c :: r).all (isDigitOf 10) = true then some (digitsValue 10 (c :: r))
    else none

/-- The state of the discovery after the records `recs` were stored: the
records, then zeroed slots up to the size `BUNCH * (k / BUNCH + 1)`. -/
def state_of (recs : List i2c_adap) : GatherState :=
  { adapters := recs ++
      List.replicate (BUNCH * (recs.length / BUNCH + 1) - recs.length) zero_adap,
    count := recs.length }

/-- Spec side: a line `i2c-<N>\t<type>\t<name>\t<algo>\n` of the legacy file,
given by the numeral `N` and its three other fields. -/
structure LegacyLine where
  num : List Char
  typ : List Char
  name : List Char
  algo : List Char
  deriving DecidableEq, Repr

/-- Spec side: a legacy line without its newline. -/
def LegacyLine.body (l : LegacyLine) : List Char :=
  "i2c-".toList ++ l.num ++ '\t' :: l.typ ++ '\t' :: l.name ++ '\t' :: l.algo

/-- Spec side: the bytes of a legacy line. -/
def LegacyLine.text (l : LegacyLine) : List Char :=
  l.body ++ ['\n']

/-- Spec side: a field holds no tab, newline or NUL. -/
def field_ok (f : List Char) : Bool :=
  f.all (fun c => c ≠ '\t' && c ≠ '\n' && c ≠ '\x00')

/-- Spec side: a legacy line is well formed when `N` is a non-empty run of
decimal digits and the three other fields hold no tab, newline or NUL. -/
def LegacyLine.well_formed (l : LegacyLine) : Bool :=
  l.num ≠ [] && l.num.all (isDigitOf 10) && field_ok l.typ && field_ok l.name &&
    field_ok l.algo

/-- Spec side: a string with its trailing spaces and newlines removed. -/
def strip (f : List Char) : List Char :=
  f.rdropWhile is_pad

/-- Spec side: the bus number of a legacy line, the value of its numeral. -/
def LegacyLine.bus (l : LegacyLine) : Nat :=
  digitsValue 10 l.num

/-- Spec side: the record a legacy line stands for. -/
def LegacyLine.record (l : LegacyLine) : i2c_adap :=
  { nr := (l.bus : Int), name := some (strip l.name), funcs := some (strip l.typ),
    algo := some (strip l.algo) }

/-- Spec side: a legacy line fits the buffer of 100 bytes `fgets` reads into,
and its bus number is an `int`. -/
def LegacyLine.fits (l : LegacyLine) : Bool :=
  decide (l.text.length ≤ 99) && decide (l.bus ≤ 2147483647)

/-- Spec side: the bytes of a legacy file made of the given lines. -/
def legacy_file : List LegacyLine → List Char
  | [] => []
  | l :: ls => l.text ++ legacy_file ls

/-- Spec side: the pieces of a text between occurrences of `sep`. -/
def split_on (sep : Char) : List Char → List (List Char)
  | [] => [[]]
  | c :: cs =>
    if c = sep then [] :: split_on sep cs
    else
      match split_on sep cs with
      | [] => [[c]]
      | f :: fs => (c :: f) :: fs

/-- Spec side: a legacy-format line (without its newline) read back: split on
tabs into four fields, the bus number taken from `i2c-<N>`, the three others
with trailing spaces and newlines trimmed, in the order type, name, algo. -/
def read_back_line (line : List Char) : Option (Int × List Char × List Char × List Char) :=
  match split_on '\t' line with
  | [f0, t, n, a] =>
    if f0.take 4 = "i2c-".toList ∧ f0.drop 4 ≠ [] ∧ (f0.drop 4).all (isDigitOf 10) = true then
      some ((digitsValue 10 (f0.drop 4) : Int), strip t, strip n, strip a)
    else none
  | _ => none

/-- Spec side: every line of a list read back, `none` when one is malformed. -/
def read_back_lines :
    List (List Char) → Option (List (Int × List Char × List Char × List Char))
  | [] => some []
  | l :: ls =>
    match read_back_line l, read_back_lines ls with
    | some r, some rs => some (r :: rs)
    | _, _ => none

/-- Spec side: the text made of the given lines, each ended by a newline. -/
def join_lines : List (List Char) → List Char
  | [] => []
  | b :: bs => b ++ '\n' :: join_lines bs

/-- Spec side: a text of newline-terminated legacy-format lines read back. -/
def read_back (text : List Char) : Option (List (Int × List Char × List Char × List Char)) :=
  read_back_lines (split_on '\n' text).dropLast

/-! ## Concrete hosts used in the examples -/

/-- A host on which every `open` fails with `ENOENT`. -/
def missing_world : World :=
  { sys_open := fun _ => OpenResult.err ENOENT,
    ioctl_funcs := fun _ => none,
    strerror := fun _ => "No such file or directory".toList }

/-- An adapter record as the legacy path builds it. -/
def example_adap : i2c_adap :=
  { nr := 0, name := some "SMBus I801 adapter at 0400".toList,
    funcs := some "smbus".toList, algo := some "Non-I2C SMBus adapter".toList }

/-- The capability flags with the values of the Linux header `linux/i2c.h`,
for the examples. -/
def linux_flags : FuncFlags :=
  { I2C_FUNC_I2C := 0x00000001,
    I2C_FUNC_SMBUS_BYTE := 0x00060000,
    I2C_FUNC_SMBUS_BYTE_DATA := 0x00180000,
    I2C_FUNC_SMBUS_WORD_DATA := 0x00600000 }

/-- A host with the node `/dev/i2c-3` only, whose adapter reports full I2C
together with the SMBus byte transfers. -/
def node3_world : World :=
  { sys_open := fun p => if p = "/dev/i2c-3".toList then OpenResult.ok 4
                         else OpenResult.err ENOENT,
    ioctl_funcs := fun fd => if fd = 4 then some 0x00060001 else none,
    strerror := fun _ => "No such file or directory".toList }

/-- A sysfs entry `i2c-3` with a `name` file. -/
def entry3 : SysfsEntry :=
  { d_name := "i2c-3".toList, name_file := some "SMBus foo\n".toList,
    device_name_file := none, device_dir := none }

/-- A sysfs entry with the given name and a readable `name` file. -/
def named_entry (d_name : String) : SysfsEntry :=
  { d_name := d_name.toList, name_file := some "adapter\n".toList,
    device_name_file := none, device_dir := none }

/-- A well-formed legacy line of 83 bytes, as a 2.4 kernel writes it. -/
def short_line : LegacyLine :=
  { num := "0".toList, typ := "smbus     ".toList,
    name := "SMBus I801 adapter at 0400      ".toList,
    algo := "Non-I2C SMBus adapter           ".toList }

/-- A well-formed legacy line of 118 bytes. -/
def long_line : LegacyLine :=
  { num := "0".toList, typ := "smbus".toList, name := "name".toList,
    algo := List.replicate 100 'a' }

/-- A well-formed legacy line whose bus number is not an `int`. -/
def big_line : LegacyLine :=
  { num := "4294967296".toList, typ := "i2c".toList, name := "name".toList,
    algo := "algo".toList }

/-- A well-formed legacy line of 110 bytes with a long name. -/
def wide_line : LegacyLine :=
  { num := "1".toList, typ := "i2c".toList, name := List.replicate 90 'n',
    algo := "bit-bang".toList }

/-- A sysfs entry `i2c--1000000000`, a name `sscanf` accepts, with a `name` file. -/
def negative_entry : SysfsEntry :=
  { d_name := "i2c--1000000000".toList, name_file := some "SMBus foo\n".toList,
    device_name_file := none, device_dir := none }

/-- A sysfs entry `i2c-0` whose `name` file opens and is empty. -/
def unreadable_entry : SysfsEntry :=
  { d_name := "i2c-0".toList, name_file := some [],
    device_name_file := none, device_dir := none }

/-- A host without `/proc/bus/i2c` whose sysfs holds one entry with an empty
`name` file. -/
def unreadable_host : Host :=
  { proc_bus_i2c := none,
    sysfs_dir := some ("/sys/class/i2c-dev".toList, [unreadable_entry]) }

/-- A sysfs entry with the given name whose `name` file holds an ISA name. -/
def isa_entry (d_name : String) : SysfsEntry :=
  { d_name := d_name.toList, name_file := some "ISA main adapter\n".toList,
    device_name_file := none, device_dir := none }

/-! # Theorems -/

/-! ## Facts about characters and digits -/

theorem isspace_toNat_le {c : Char} (h : isspace c = true) : c.toNat ≤ 32 := by
  simp only [isspace, Bool.or_eq_true, decide_eq_true_eq] at h
  rcases h with ((((h | h) | h) | h) | h) | h <;> subst h <;> decide

theorem digitVal_toNat_ge {c : Char} {d : Nat} (h : digitVal c = some d) : 48 ≤ c.toNat := by
  unfold digitVal at h
  split_ifs at h <;> omega

theorem isDigitOf_toNat_ge {b : Nat} {c : Char} (h : isDigitOf b c = true) : 48 ≤ c.toNat := by
  unfold isDigitOf at h
  split at h
  · next d hd => exact digitVal_toNat_ge hd
  · simp at h

theorem digit_not_space {b : Nat} {c : Char} (h : isDigitOf b c = true) : isspace c = false := by
  have h1 := isDigitOf_toNat_ge h
  by_contra h2
  have h3 := isspace_toNat_le (by simpa using h2)
  omega

theorem digit_ne_minus {b : Nat} {c : Char} (h : isDigitOf b c = true) : c ≠ '-' := by
  intro hc
  have h1 := isDigitOf_toNat_ge h
  subst hc
  revert h1
  decide

theorem digit_ne_plus {b : Nat} {c : Char} (h : isDigitOf b c = true) : c ≠ '+' := by
  intro hc
  have h1 := isDigitOf_toNat_ge h
  subst hc
  revert h1
  decide

theorem skipSpace_digit {b : Nat} {c : Char} (r : List Char) (h : isDigitOf b c = true) :
    skipSpace (c :: r) = c :: r := by
  simp [skipSpace, List.dropWhile, digit_not_space h]

theorem scanSign_digit {b : Nat} {c : Char} (r : List Char) (h : isDigitOf b c = true) :
    scanSign (c :: r) = (false, c :: r) := by
  simp [scanSign, digit_ne_minus h, digit_ne_plus h]

theorem takeWhile_of_all {p : Char → Bool} {l : List Char} (h : l.all p = true) :
    l.takeWhile p = l := by
  induction l with
  | nil => rfl
  | cons a t ih =>
    simp only [List.all_cons, Bool.and_eq_true] at h
    simp [List.takeWhile, h.1, ih h.2]

theorem dropWhile_of_all {p : Char → Bool} {l : List Char} (h : l.all p = true) :
    l.dropWhile p = [] := by
  induction l with
  | nil => rfl
  | cons a t ih =>
    simp only [List.all_cons, Bool.and_eq_true] at h
    simp [List.dropWhile, h.1, ih h.2]

/-- The run of digits at the head of a string that starts with a digit and
holds the whole subject: `strtol` returns its value and consumes everything. -/
theorem strtol_of_digits {s ds : List Char} {b base : Nat} {c : Char} {r : List Char}
    (hs : s = c :: r) (hc : isDigitOf b c = true)
    (hb : scanBase s = (base, ds)) (hne : ds ≠ []) (hall : ds.all (isDigitOf base) = true) :
    strtol s = (clampLong false (digitsValue base ds), []) := by
  subst hs
  simp only [strtol, skipSpace_digit r hc, scanSign_digit r hc, hb, takeWhile_of_all hall,
    dropWhile_of_all hall, if_neg hne]

theorem clampLong_small {n : Nat} (h : n ≤ 255) : clampLong false n = (n : Int) := by
  simp only [clampLong, LONG_MAX]
  simp only [Bool.false_eq_true, if_false]
  rw [if_neg]
  omega

theorem lookup_of_strtol {s : List Char} {n : Nat} (hne : s ≠ []) (hn : n ≤ 255)
    (h : strtol s = ((n : Int), [])) : lookup_i2c_bus s = ((n : Int), []) := by
  simp only [lookup_i2c_bus, h]
  rw [if_neg (by simp [hne]), if_neg (by omega)]

theorem digitsValue_zero_cons (base : Nat) (r : List Char) :
    digitsValue base ('0' :: r) = digitsValue base r := by
  simp [digitsValue, digitVal]

/-- Claim C1: for every string that is in its entirety an integer literal
(hexadecimal after `0x`/`0X`, octal after `0`, decimal otherwise) of value `n`
with `n ≤ 255`, `lookup_i2c_bus` returns exactly `n` and writes no diagnostic. -/
theorem lookup_i2c_bus_literal (s : List Char) (n : Nat)
    (hlit : literal_value s = some n) (hn : n ≤ 255) :
    lookup_i2c_bus s = ((n : Int), []) := by
  cases s with
  | nil => simp [literal_value] at hlit
  | cons c r =>
    apply lookup_of_strtol (by simp) hn
    rw [← clampLong_small hn]
    by_cases hc : c = '0'
    · subst hc
      have hz : isDigitOf 10 '0' = true := by decide
      cases r with
      | nil =>
        simp [literal_value] at hlit
        subst hlit
        decide
      | cons x h =>
        simp only [literal_value, if_true] at hlit
        by_cases hx : x = 'x' ∨ x = 'X'
        · rw [if_pos hx] at hlit
          split_ifs at hlit with hh
          obtain ⟨hh1, hh2⟩ := hh
          cases h with
          | nil => exact absurd rfl hh1
          | cons h0 t =>
            have hh0 : isDigitOf 16 h0 = true := by
              simp only [List.all_cons, Bool.and_eq_true] at hh2
              exact hh2.1
            injection hlit with hlit
            subst hlit
            exact strtol_of_digits rfl hz (by simp [scanBase, hx, hh0]) (by simp) hh2
        · rw [if_neg hx] at hlit
          split_ifs at hlit with hh
          injection hlit with hlit
          subst hlit
          rw [← digitsValue_zero_cons 8 (x :: h)]
          have hb : scanBase ('0' :: x :: h) = (8, '0' :: x :: h) := by
            cases h with
            | nil => simp [scanBase]
            | cons h0 t => simp [scanBase, hx]
          refine strtol_of_digits rfl hz hb (by simp) ?_
          rw [List.all_cons, hh]
          decide
    · simp only [literal_value, if_neg hc] at hlit
      split_ifs at hlit with hh
      injection hlit with hlit
      subst hlit
      have hcd : isDigitOf 10 c = true := by
        simp only [List.all_cons, Bool.and_eq_true] at hh
        exact hh.1
      exact strtol_of_digits rfl hcd (by simp [scanBase, hc]) (by simp) hh

/-- Claim C1 at `"0x1A"` and `"10"`: they are literals of value 26 and 10, and
`lookup_i2c_bus` returns 26 and 10. -/
theorem lookup_i2c_bus_literal_witness :
    (literal_value "0x1A".toList = some 26 ∧ lookup_i2c_bus "0x1A".toList = (26, [])) ∧
    (literal_value "10".toList = some 10 ∧ lookup_i2c_bus "10".toList = (10, [])) :=
  ⟨⟨by decide, lookup_i2c_bus_literal "0x1A".toList 26 (by decide) (by decide)⟩,
   ⟨by decide, lookup_i2c_bus_literal "10".toList 10 (by decide) (by decide)⟩⟩

theorem msg_distinct : msg_not_a_number ≠ msg_out_of_range := by
  decide

/-- The three ways `lookup_i2c_bus` returns. -/
theorem lookup_cases (s : List Char) :
    (((strtol s).2 ≠ [] ∨ s = []) ∧
      lookup_i2c_bus s = (-1, [(OutStream.stderr, msg_not_a_number)])) ∨
    ((strtol s).2 = [] ∧ s ≠ [] ∧ ((strtol s).1 < 0 ∨ 255 < (strtol s).1) ∧
      lookup_i2c_bus s = (-2, [(OutStream.stderr, msg_out_of_range)])) ∨
    ((strtol s).2 = [] ∧ s ≠ [] ∧ 0 ≤ (strtol s).1 ∧ (strtol s).1 ≤ 255 ∧
      lookup_i2c_bus s = ((strtol s).1, [])) := by
  unfold lookup_i2c_bus
  by_cases h1 : (strtol s).2 ≠ [] ∨ s = []
  · left
    exact ⟨h1, by simp only [if_pos h1]⟩
  · right
    have h2 : (strtol s).2 = [] := by
      by_contra h
      exact h1 (Or.inl h)
    have h3 : s ≠ [] := fun h => h1 (Or.inr h)
    by_cases h4 : (strtol s).1 < 0 ∨ (strtol s).1 > 255
    · left
      exact ⟨h2, h3, h4, by simp only [if_neg h1, if_pos h4]⟩
    · right
      exact ⟨h2, h3, by omega, by omega, by simp only [if_neg h1, if_neg h4]⟩

/-- Claim C2: for every string `s`, `lookup_i2c_bus s` returns -1 exactly when `s`
is empty or characters remain after the integer `strtol` parsed, -2 exactly when
`s` is non-empty, consumed entirely, and the value is below 0 or above 255, and a
value in 0..255 (the parsed value) exactly in the remaining case; the result is
always -1, -2 or in 0..255; -1 comes with the not-a-number diagnostic and -2 with
the out-of-range one, which differ; `"12x"` and the empty string give -1, `"256"`
and `"-1"` give -2. -/
theorem lookup_i2c_bus_results (s : List Char) :
    ((lookup_i2c_bus s).1 = -1 ↔ (s = [] ∨ (strtol s).2 ≠ [])) ∧
    ((lookup_i2c_bus s).1 = -2 ↔
      (s ≠ [] ∧ (strtol s).2 = [] ∧ ((strtol s).1 < 0 ∨ 255 < (strtol s).1))) ∧
    ((0 ≤ (lookup_i2c_bus s).1 ∧ (lookup_i2c_bus s).1 ≤ 255) ↔
      (s ≠ [] ∧ (strtol s).2 = [] ∧ 0 ≤ (strtol s).1 ∧ (strtol s).1 ≤ 255 ∧
        (lookup_i2c_bus s).1 = (strtol s).1)) ∧
    ((lookup_i2c_bus s).1 = -1 ∨ (lookup_i2c_bus s).1 = -2 ∨
      (0 ≤ (lookup_i2c_bus s).1 ∧ (lookup_i2c_bus s).1 ≤ 255)) ∧
    ((lookup_i2c_bus s).2 = [(OutStream.stderr, msg_not_a_number)] ↔
      (lookup_i2c_bus s).1 = -1) ∧
    ((lookup_i2c_bus s).2 = [(OutStream.stderr, msg_out_of_range)] ↔
      (lookup_i2c_bus s).1 = -2) ∧
    msg_not_a_number ≠ msg_out_of_range ∧
    lookup_i2c_bus "12x".toList = (-1, [(OutStream.stderr, msg_not_a_number)]) ∧
    lookup_i2c_bus [] = (-1, [(OutStream.stderr, msg_not_a_number)]) ∧
    lookup_i2c_bus "256".toList = (-2, [(OutStream.stderr, msg_out_of_range)]) ∧
    lookup_i2c_bus "-1".toList = (-2, [(OutStream.stderr, msg_out_of_range)]) := by
  have hm := msg_distinct
  refine ⟨?_, ?_, ?_, ?_, ?_, ?_, hm, by decide, by decide, by decide, by decide⟩
  all_goals
    rcases lookup_cases s with ⟨h1, h⟩ | ⟨h2, h3, h4, h⟩ | ⟨h2, h3, h4, h5, h⟩
    · rw [h]
      first
        | (simp [hm]; done)
        | (simp [hm]; tauto)
    · rw [h]
      first
        | (simp [hm.symm, h2, h3]; done)
        | (simp [hm.symm, h2, h3]; omega)
    · rw [h]
      first
        | (simp [h2, h3]; done)
        | (simp [h2, h3]; omega)

/-! ## `open_i2c_dev` -/

theorem padField_zero (s : List Char) : padField false 0 s = s := by
  simp [padField]

theorem sprintf_dev_slash (n : Int) :
    sprintf "/dev/i2c/%d" [Arg.int n] = "/dev/i2c/".toList ++ fmt_d n := by
  simp [sprintf, format, isDigitOf, digitVal, padField_zero]

theorem sprintf_dev_dash (n : Int) :
    sprintf "/dev/i2c-%d" [Arg.int n] = "/dev/i2c-".toList ++ fmt_d n := by
  simp [sprintf, format, isDigitOf, digitVal, padField_zero]

/-- Claim C8: for every bus number `N`, host and `quiet`, `open_i2c_dev` first
opens `/dev/i2c/N`; when that succeeds it returns its handle with `filename`
holding that path and makes no other call; when it fails with another error than
`ENOENT` it returns a negative value without a second attempt; when it fails with
`ENOENT` it opens `/dev/i2c-N` and returns that handle with `filename` holding
that path, or a negative value when that fails too; with `quiet` non-zero nothing
is written in any case. -/
theorem open_i2c_dev_attempts (W : World) (errno0 : Nat) (N quiet : Int) :
    (∀ fd, W.sys_open ("/dev/i2c/".toList ++ fmt_d N) = OpenResult.ok fd →
      open_i2c_dev W errno0 N quiet =
        { file := (fd : Int), filename := "/dev/i2c/".toList ++ fmt_d N, errno := errno0,
          out := [], calls := [Syscall.sys_open ("/dev/i2c/".toList ++ fmt_d N)] }) ∧
    (∀ e, W.sys_open ("/dev/i2c/".toList ++ fmt_d N) = OpenResult.err e → e ≠ ENOENT →
      (open_i2c_dev W errno0 N quiet).file < 0 ∧
      (open_i2c_dev W errno0 N quiet).calls =
        [Syscall.sys_open ("/dev/i2c/".toList ++ fmt_d N)]) ∧
    (∀ fd, W.sys_open ("/dev/i2c/".toList ++ fmt_d N) = OpenResult.err ENOENT →
      W.sys_open ("/dev/i2c-".toList ++ fmt_d N) = OpenResult.ok fd →
      open_i2c_dev W errno0 N quiet =
        { file := (fd : Int), filename := "/dev/i2c-".toList ++ fmt_d N, errno := ENOENT,
          out := [],
          calls := [Syscall.sys_open ("/dev/i2c/".toList ++ fmt_d N),
                    Syscall.sys_open ("/dev/i2c-".toList ++ fmt_d N)] }) ∧
    (∀ e, W.sys_open ("/dev/i2c/".toList ++ fmt_d N) = OpenResult.err ENOENT →
      W.sys_open ("/dev/i2c-".toList ++ fmt_d N) = OpenResult.err e →
      (open_i2c_dev W errno0 N quiet).file < 0 ∧
      (open_i2c_dev W errno0 N quiet).calls =
        [Syscall.sys_open ("/dev/i2c/".toList ++ fmt_d N),
         Syscall.sys_open ("/dev/i2c-".toList ++ fmt_d N)]) ∧
    (quiet ≠ 0 → (open_i2c_dev W errno0 N quiet).out = []) := by
  refine ⟨?_, ?_, ?_, ?_, ?_⟩
  · intro fd h
    have hfd : ¬ ((fd : Int) < 0) := by omega
    simp only [open_i2c_dev, sprintf_dev_slash, h, OpenResult.file, OpenResult.errno]
    simp [hfd]
  · intro e h he
    simp only [open_i2c_dev, sprintf_dev_slash, h, OpenResult.file, OpenResult.errno]
    simp [he]
  · intro fd h1 h2
    have hfd : ¬ ((fd : Int) < 0) := by omega
    simp only [open_i2c_dev, sprintf_dev_slash, sprintf_dev_dash, h1, h2, OpenResult.file,
      OpenResult.errno]
    simp [hfd]
  · intro e h1 h2
    simp only [open_i2c_dev, sprintf_dev_slash, sprintf_dev_dash, h1, h2, OpenResult.file,
      OpenResult.errno]
    simp
  · intro hq
    unfold open_i2c_dev
    simp only []
    split_ifs <;> simp_all

/-- Claim C8 at `N = 3`, quiet, with neither path existing: both paths are
tried in order, the result is negative and nothing is written. -/
theorem open_i2c_dev_attempts_witness :
    (open_i2c_dev missing_world 0 3 1).file < 0 ∧
    (open_i2c_dev missing_world 0 3 1).calls =
      [Syscall.sys_open "/dev/i2c/3".toList, Syscall.sys_open "/dev/i2c-3".toList] ∧
    (open_i2c_dev missing_world 0 3 1).out = [] :=
  ⟨((open_i2c_dev_attempts missing_world 0 3 1).2.2.2.1 ENOENT (by decide) (by decide)).1,
   ((open_i2c_dev_attempts missing_world 0 3 1).2.2.2.1 ENOENT (by decide) (by decide)).2,
   (open_i2c_dev_attempts missing_world 0 3 1).2.2.2.2 (by decide)⟩

/-! ## Decimal numerals -/

theorem digitVal_ofNat {d : Nat} (h : d < 10) : digitVal (Char.ofNat (48 + d)) = some d := by
  interval_cases d <;> decide

theorem isDigitOf_ofNat {d : Nat} (h : d < 10) : isDigitOf 10 (Char.ofNat (48 + d)) = true := by
  simp [isDigitOf, digitVal_ofNat h, h]

theorem natDigitsAux_all (fuel n : Nat) (acc : List Char)
    (hacc : acc.all (isDigitOf 10) = true) :
    (natDigitsAux fuel n acc).all (isDigitOf 10) = true := by
  induction fuel generalizing n acc with
  | zero => simpa [natDigitsAux] using hacc
  | succ k ih =>
    have hd : isDigitOf 10 (Char.ofNat (48 + n % 10)) = true :=
      isDigitOf_ofNat (Nat.mod_lt _ (by decide))
    have hacc1 : (Char.ofNat (48 + n % 10) :: acc).all (isDigitOf 10) = true := by
      rw [List.all_cons, hd, hacc]
      rfl
    unfold natDigitsAux
    split_ifs
    · exact hacc1
    · exact ih _ _ hacc1

theorem natDigits_all (n : Nat) : (natDigits n).all (isDigitOf 10) = true :=
  natDigitsAux_all _ _ _ rfl

theorem natDigitsAux_ne_nil (fuel n : Nat) (acc : List Char) :
    natDigitsAux (fuel + 1) n acc ≠ [] := by
  induction fuel generalizing n acc with
  | zero =>
    unfold natDigitsAux
    split_ifs
    · simp
    · simp [natDigitsAux]
  | succ k ih =>
    unfold natDigitsAux
    split_ifs
    · simp
    · exact ih _ _

theorem natDigits_ne_nil (n : Nat) : natDigits n ≠ [] :=
  natDigitsAux_ne_nil _ _ _

theorem digitsValue_foldl (base : Nat) (ds : List Char) :
    digitsValue base ds = ds.foldl (fun acc c => acc * base + (digitVal c).getD 0) 0 := rfl

theorem natDigitsAux_value (fuel n : Nat) (acc : List Char) (h : n < fuel) :
    (natDigitsAux fuel n acc).foldl (fun a c => a * 10 + (digitVal c).getD 0) 0 =
      acc.foldl (fun a c => a * 10 + (digitVal c).getD 0) n := by
  induction fuel generalizing n acc with
  | zero => omega
  | succ k ih =>
    have hd : digitVal (Char.ofNat (48 + n % 10)) = some (n % 10) :=
      digitVal_ofNat (Nat.mod_lt _ (by decide))
    unfold natDigitsAux
    split_ifs with hz
    · have hn : 0 * 10 + n % 10 = n := by omega
      rw [List.foldl_cons, hd, Option.getD_some, hn]
    · rw [ih _ _ (by omega)]
      have hn : n / 10 * 10 + n % 10 = n := by omega
      rw [List.foldl_cons, hd, Option.getD_some, hn]

/-- Reading back the decimal numeral of `n` gives `n`. -/
theorem digitsValue_natDigits (n : Nat) : digitsValue 10 (natDigits n) = n := by
  rw [digitsValue_foldl, natDigits, natDigitsAux_value _ _ _ (by omega)]
  rfl

theorem fmt_d_no_tab (v : Int) : (fmt_d v).count '\t' = 0 := by
  have h : ∀ n, (natDigits n).count '\t' = 0 := by
    intro n
    rw [List.count_eq_zero]
    intro hmem
    have := List.all_eq_true.mp (natDigits_all n) _ hmem
    revert this
    decide
  unfold fmt_d
  split_ifs
  · rw [List.count_cons, h]
    decide
  · exact h _

/-! ## `print_i2c_busses` -/

theorem proc_line_eq (nr : Int) (name funcs algo : List Char) :
    proc_line { nr := nr, name := some name, funcs := some funcs, algo := some algo } =
      "i2c-".toList ++ fmt_d nr ++ '\t' :: padField true 10 funcs ++
        '\t' :: padField true 32 name ++ '\t' :: algo ++ ['\n'] := by
  simp [proc_line, str_arg, sprintf, format, isDigitOf, digitVal, padField_zero]

theorem count_replicate_space (k : Nat) : (List.replicate k ' ').count '\t' = 0 := by
  rw [List.count_eq_zero]
  intro h
  have := List.eq_of_mem_replicate h
  revert this
  decide

theorem padField_count (w : Nat) (s : List Char) :
    (padField true w s).count '\t' = s.count '\t' := by
  simp [padField, List.count_append, count_replicate_space]

theorem proc_line_head (a : i2c_adap) : (proc_line a).head? = some 'i' := by
  simp [proc_line, sprintf, format]

theorem human_line_head (a : i2c_adap) : (human_line a).head? = some ' ' := by
  simp [human_line, sprintf, format]

/-- The loop over named records followed by a terminator: it stops at the
terminator, and every text it writes starts with `i` or a space. -/
theorem print_loop_named (procfmt : Int) (recs : List i2c_adap) (t : i2c_adap)
    (rest : List i2c_adap) (k : Nat)
    (hnamed : ∀ a ∈ recs, a.name ≠ none) (ht : t.name = none) :
    ∃ out, print_loop procfmt (recs ++ t :: rest) k = some (out, k + recs.length) ∧
      (∀ w ∈ out, w.2.head? = some 'i' ∨ w.2.head? = some ' ') ∧
      (procfmt ≠ 0 → out = recs.map (fun a => (OutStream.stdout, proc_line a))) := by
  induction recs generalizing k with
  | nil =>
    refine ⟨[], ?_, ?_, ?_⟩
    · simp [print_loop, ht]
    · simp
    · simp
  | cons a as ih =>
    obtain ⟨out, h1, h2, h3⟩ := ih (k + 1) (fun b hb => hnamed b (List.mem_cons_of_mem _ hb))
    have ha : a.name ≠ none := hnamed a (List.mem_cons_self _ _)
    obtain ⟨nm, hnm⟩ := Option.ne_none_iff_exists'.mp ha
    refine ⟨(if k = 0 ∧ procfmt = 0 then [(OutStream.stderr, msg_installed)] else []) ++
        (if procfmt ≠ 0 then (OutStream.stdout, proc_line a)
         else (OutStream.stderr, human_line a)) :: out, ?_, ?_, ?_⟩
    · rw [List.cons_append, print_loop]
      simp only [hnm, h1, List.length_cons]
      rw [show k + 1 + as.length = k + (as.length + 1) by omega]
    · intro w hw
      rw [List.mem_append, List.mem_cons] at hw
      rcases hw with hw | hw | hw
      · split_ifs at hw
        · rw [List.mem_singleton] at hw
          subst hw
          right
          rfl
        · simp at hw
      · subst hw
        split_ifs
        · left
          exact proc_line_head a
        · right
          exact human_line_head a
      · exact h2 w hw
    · intro hp
      simp [hp, h3 hp]

/-- Claim C6, amended: in proc-compatible mode the line of an adapter is the bus
label `i2c-<N>`, a tab, the class left-justified in 10 columns, a tab, the name
left-justified in 32 columns, a tab, the description and a newline, so the line
holds exactly three tabs besides those inside the fields; and for a list of
named records ended by a terminator, `print_i2c_busses` writes exactly these
lines, one per record and in order, to standard output. -/
theorem print_proc_format :
    (∀ (nr : Int) (name funcs algo : List Char),
      proc_line { nr := nr, name := some name, funcs := some funcs, algo := some algo } =
        "i2c-".toList ++ fmt_d nr ++ '\t' :: padField true 10 funcs ++
          '\t' :: padField true 32 name ++ '\t' :: algo ++ ['\n'] ∧
      (proc_line { nr := nr, name := some name, funcs := some funcs,
                   algo := some algo }).count '\t' =
        3 + funcs.count '\t' + name.count '\t' + algo.count '\t') ∧
    (∀ (procfmt : Int) (recs : List i2c_adap) (t : i2c_adap) (rest : List i2c_adap),
      procfmt ≠ 0 → (∀ a ∈ recs, a.name ≠ none) → t.name = none →
      print_adapters procfmt (some (recs ++ t :: rest)) =
        some (recs.map (fun a => (OutStream.stdout, proc_line a)))) := by
  refine ⟨?_, ?_⟩
  · intro nr name funcs algo
    refine ⟨proc_line_eq nr name funcs algo, ?_⟩
    rw [proc_line_eq]
    simp only [List.count_append, List.count_cons, padField_count, fmt_d_no_tab]
    simp
    omega
  · intro procfmt recs t rest hp hnamed ht
    obtain ⟨out, h1, -, h3⟩ := print_loop_named procfmt recs t rest 0 hnamed ht
    simp [print_adapters, h1, hp, h3 hp]

/-- Claim C6, amended, at a list of one record: the single line written. -/
theorem print_proc_format_witness :
    print_adapters 1 (some (example_adap :: init_state.adapters)) =
      some [(OutStream.stdout,
        "i2c-0\tsmbus     \tSMBus I801 adapter at 0400      \tNon-I2C SMBus adapter\n".toList)] :=
  (print_proc_format.2 1 [example_adap] zero_adap (List.replicate 7 zero_adap)
    (by decide) (by decide) rfl).trans (by decide)

/-- Claim C6 as stated fails: for a record whose fields hold no tab, the line
written is not the bus label, one tab and the three columns joined by padding
alone, and it holds three tabs, not one. -/
theorem print_proc_format_counterexample :
    proc_line example_adap ≠
      "i2c-".toList ++ fmt_d 0 ++ '\t' :: padField true 10 "smbus".toList ++
        padField true 32 "SMBus I801 adapter at 0400".toList ++
        "Non-I2C SMBus adapter".toList ++ ['\n'] ∧
    (proc_line example_adap).count '\t' = 3 ∧
    "smbus".toList.count '\t' = 0 ∧
    "SMBus I801 adapter at 0400".toList.count '\t' = 0 ∧
    "Non-I2C SMBus adapter".toList.count '\t' = 0 := by
  decide

/-! ## Classification of a sysfs entry -/

theorem lor_eq_zero {a b : Nat} : a ||| b = 0 ↔ a = 0 ∧ b = 0 := by
  constructor
  · intro h
    have ht : ∀ i, a.testBit i = false ∧ b.testBit i = false := by
      intro i
      have := congrArg (fun n => Nat.testBit n i) h
      simpa [Nat.testBit_or] using this
    exact ⟨Nat.eq_of_testBit_eq (by intro i; simp [(ht i).1]),
      Nat.eq_of_testBit_eq (by intro i; simp [(ht i).2])⟩
  · rintro ⟨rfl, rfl⟩
    rfl

theorem and_lor3_eq_zero (x a b c : Nat) :
    x &&& (a ||| b ||| c) = 0 ↔ x &&& a = 0 ∧ x &&& b = 0 ∧ x &&& c = 0 := by
  rw [Nat.and_or_distrib_left, Nat.and_or_distrib_left, lor_eq_zero, lor_eq_zero, and_assoc]

theorem natDigitsAux_length (fuel n : Nat) (acc : List Char) (k : Nat)
    (hn : n < 10 ^ k) (hk : 1 ≤ k) : (natDigitsAux fuel n acc).length ≤ acc.length + k := by
  induction fuel generalizing n acc k with
  | zero =>
    simp only [natDigitsAux]
    omega
  | succ f ih =>
    unfold natDigitsAux
    split_ifs with hz
    · simp only [List.length_cons]
      omega
    · obtain ⟨j, rfl⟩ : ∃ j, k = j + 1 := ⟨k - 1, by omega⟩
      have hj : 1 ≤ j := by
        rcases Nat.eq_zero_or_pos j with h0 | h0
        · subst h0
          simp only [zero_add, pow_one] at hn
          omega
        · exact h0
      have hdiv : n / 10 < 10 ^ j := by
        rw [pow_succ] at hn
        exact Nat.div_lt_of_lt_mul (by omega)
      have := ih (n / 10) (Char.ofNat (48 + n % 10) :: acc) j hdiv hj
      simp only [List.length_cons] at this
      omega

/-- The numeral of an `int` not below -999999999 has at most 10 characters. -/
theorem fmt_d_length (v : Int) (h1 : -999999999 ≤ v) (h2 : v ≤ 2147483647) :
    (fmt_d v).length ≤ 10 := by
  unfold fmt_d
  split_ifs with hneg
  · have := natDigitsAux_length (v.natAbs + 1) v.natAbs [] 9 (by norm_num; omega) (by omega)
    simp only [List.length_cons, natDigits]
    simp only [List.length_nil] at this
    omega
  · have := natDigitsAux_length (v.natAbs + 1) v.natAbs [] 10 (by norm_num; omega) (by omega)
    simp only [natDigits]
    simp only [List.length_nil] at this
    omega

/-- Both paths of `open_i2c_dev` fit `filename` when the numeral has at most 10
characters. -/
theorem open_fits (W : World) (errno0 : Nat) (v : Int) (h : (fmt_d v).length ≤ 10) :
    ¬ ((open_i2c_dev W errno0 v 1).calls.any overflows_filename = true) := by
  have h1 : overflows_filename (Syscall.sys_open ("/dev/i2c/".toList ++ fmt_d v)) = false := by
    simp only [overflows_filename, FILENAME_SIZE, decide_eq_false_iff_not, List.length_append]
    have : "/dev/i2c/".toList.length = 9 := rfl
    omega
  have h2 : overflows_filename (Syscall.sys_open ("/dev/i2c-".toList ++ fmt_d v)) = false := by
    simp only [overflows_filename, FILENAME_SIZE, decide_eq_false_iff_not, List.length_append]
    have : "/dev/i2c-".toList.length = 9 := rfl
    omega
  unfold open_i2c_dev
  simp only [sprintf_dev_slash, sprintf_dev_dash]
  split_ifs <;>
    simp only [List.any_cons, List.any_nil, h1, h2, Bool.or_false, Bool.false_eq_true,
      not_false_eq_true]

theorem i2c_get_funcs_fits (W : World) (F : FuncFlags) (errno0 : Nat) (v : Int)
    (h : (fmt_d v).length ≤ 10) :
    i2c_get_funcs W F errno0 v = Outcome.done (funcs_class W F (open_i2c_dev W errno0 v 1)) := by
  rw [i2c_get_funcs, if_neg (open_fits W errno0 v h)]

theorem toInt32_range (x : Int) : -2147483648 ≤ toInt32 x ∧ toInt32 x ≤ 2147483647 := by
  unfold toInt32
  omega

theorem scan_d_range {s : List Char} {v : Int} (h : scan_d s = ScanResult.assigned v) :
    -2147483648 ≤ v ∧ v ≤ 2147483647 := by
  unfold scan_d at h
  simp only [] at h
  split_ifs at h
  injection h with h
  rw [← h]
  exact toInt32_range _

/-- The number `sscanf` stores is an `int`. -/
theorem sscanf_i2c_d_range {s : List Char} {v : Int}
    (h : sscanf_i2c_d s = ScanResult.assigned v) :
    -2147483648 ≤ v ∧ v ≤ 2147483647 := by
  unfold sscanf_i2c_d at h
  split at h
  · exact scan_d_range h
  · cases h
  · cases h

/-- The turn of the sysfs loop for an entry whose name was read and whose bus
number was scanned, up to the classification. -/
theorem sysfs_entry_assigned (W : World) (F : FuncFlags) (errno0 : Nat) (sysfs : List Char)
    (indet : Int) (e : SysfsEntry) (n bytes chunk rest : List Char) (v : Int)
    (hname : open_name sysfs e = Outcome.done (some (n, bytes)))
    (hread : fgets 120 bytes = some (chunk, rest))
    (hscan : sscanf_i2c_d e.d_name = ScanResult.assigned v) :
    sysfs_entry W F errno0 sysfs indet e =
      if (read_name chunk).take 4 = "ISA ".toList then
        Outcome.done (stored_entry v (read_name chunk) (adt.adt_isa, []))
      else
        match i2c_get_funcs W F errno0 v with
        | Outcome.done probe => Outcome.done (stored_entry v (read_name chunk) probe)
        | Outcome.undefined => Outcome.undefined
        | Outcome.out_of_fuel => Outcome.out_of_fuel := by
  have hd1 : e.d_name ≠ ".".toList := by
    intro h
    have hdot : sscanf_i2c_d ".".toList = ScanResult.nomatch := by decide
    rw [h, hdot] at hscan
    cases hscan
  have hd2 : e.d_name ≠ "..".toList := by
    intro h
    have hdot : sscanf_i2c_d "..".toList = ScanResult.nomatch := by decide
    rw [h, hdot] at hscan
    cases hscan
  have hisa : (strncmp_eq (read_name chunk) "ISA ".toList 4 = true) ↔
      (read_name chunk).take 4 = "ISA ".toList := by
    simp [strncmp_eq]
  simp only [sysfs_entry, if_neg hd1, if_neg hd2, hname, hread, hscan, ScanResult.ret, hisa]
  simp

/-- Claim C3, amended: for a sysfs entry whose name was read and whose bus number
`v` was scanned, when the name starts with `ISA ` the record stored carries the
labels of `isa` and no system call is made; otherwise, when `v` is at least
-999999999, so that the paths of the device node fit the 20 bytes of `filename`,
the record stored carries the labels of a class `t` that is `unknown` when
`open_i2c_dev` fails or the capability `ioctl` fails; otherwise `i2c` when the
flags have a bit of the full-I2C flag, whatever else is set; otherwise `smbus`
when they have a bit of the SMBus byte, byte-data or word-data flags; otherwise
`dummy`. -/
theorem sysfs_entry_class (W : World) (F : FuncFlags) (errno0 : Nat) (sysfs : List Char)
    (indet : Int) (e : SysfsEntry) (n bytes chunk rest : List Char) (v : Int)
    (hname : open_name sysfs e = Outcome.done (some (n, bytes)))
    (hread : fgets 120 bytes = some (chunk, rest))
    (hscan : sscanf_i2c_d e.d_name = ScanResult.assigned v)
    (hfit : (read_name chunk).take 4 ≠ "ISA ".toList → -999999999 ≤ v) :
    ∃ (t : adt) (calls : List Syscall),
      sysfs_entry W F errno0 sysfs indet e =
        Outcome.done
          { record := some { nr := v, name := some (read_name chunk),
                             funcs := some (adap_types_funcs t),
                             algo := some (adap_types_algo t) },
            out := [], calls := calls } ∧
      ((read_name chunk).take 4 = "ISA ".toList → t = adt.adt_isa ∧ calls = []) ∧
      ((read_name chunk).take 4 ≠ "ISA ".toList →
        ((open_i2c_dev W errno0 v 1).file < 0 → t = adt.adt_unknown) ∧
        (0 ≤ (open_i2c_dev W errno0 v 1).file →
          (W.ioctl_funcs (open_i2c_dev W errno0 v 1).file.toNat = none →
            t = adt.adt_unknown) ∧
          (∀ funcs, W.ioctl_funcs (open_i2c_dev W errno0 v 1).file.toNat = some funcs →
            (funcs &&& F.I2C_FUNC_I2C ≠ 0 → t = adt.adt_i2c) ∧
            (funcs &&& F.I2C_FUNC_I2C = 0 →
              (funcs &&& F.I2C_FUNC_SMBUS_BYTE ≠ 0 ∨
               funcs &&& F.I2C_FUNC_SMBUS_BYTE_DATA ≠ 0 ∨
               funcs &&& F.I2C_FUNC_SMBUS_WORD_DATA ≠ 0) → t = adt.adt_smbus) ∧
            (funcs &&& F.I2C_FUNC_I2C = 0 →
              funcs &&& F.I2C_FUNC_SMBUS_BYTE = 0 →
              funcs &&& F.I2C_FUNC_SMBUS_BYTE_DATA = 0 →
              funcs &&& F.I2C_FUNC_SMBUS_WORD_DATA = 0 → t = adt.adt_dummy)))) := by
  rw [sysfs_entry_assigned W F errno0 sysfs indet e n bytes chunk rest v hname hread hscan]
  by_cases hisa : (read_name chunk).take 4 = "ISA ".toList
  · refine ⟨adt.adt_isa, [], ?_, fun _ => ⟨rfl, rfl⟩, fun h => absurd hisa h⟩
    rw [if_pos hisa]
    rfl
  · have hlen := fmt_d_length v (hfit hisa) (sscanf_i2c_d_range hscan).2
    refine ⟨(funcs_class W F (open_i2c_dev W errno0 v 1)).1,
      (funcs_class W F (open_i2c_dev W errno0 v 1)).2, ?_, fun h => absurd h hisa, fun _ => ?_⟩
    · rw [if_neg hisa, i2c_get_funcs_fits W F errno0 v hlen]
      rfl
    · refine ⟨?_, ?_⟩
      · intro hneg
        simp [funcs_class, hneg]
      · intro hpos
        have hneg : ¬ (open_i2c_dev W errno0 v 1).file < 0 := by omega
        refine ⟨?_, ?_⟩
        · intro hio
          simp [funcs_class, hneg, hio]
        · intro funcs hio
          refine ⟨?_, ?_, ?_⟩
          · intro h1
            simp [funcs_class, hneg, hio, h1]
          · intro h1 h2
            have h3 : funcs &&& (F.I2C_FUNC_SMBUS_BYTE ||| F.I2C_FUNC_SMBUS_BYTE_DATA |||
                F.I2C_FUNC_SMBUS_WORD_DATA) ≠ 0 := by
              rw [Ne, and_lor3_eq_zero]
              tauto
            simp only [funcs_class, if_neg hneg, hio, h1, ne_eq, not_true_eq_false, if_false,
              h3, not_false_eq_true, if_true]
          · intro h1 h2 h3 h4
            have h5 : funcs &&& (F.I2C_FUNC_SMBUS_BYTE ||| F.I2C_FUNC_SMBUS_BYTE_DATA |||
                F.I2C_FUNC_SMBUS_WORD_DATA) = 0 := by
              rw [and_lor3_eq_zero]
              exact ⟨h2, h3, h4⟩
            simp only [funcs_class, if_neg hneg, hio, h1, ne_eq, not_true_eq_false, if_false,
              h5]

/-- Claim C3, amended, at the entry `i2c-3` of a host whose adapter reports full
I2C together with SMBus byte transfers: the class is `i2c`. -/
theorem sysfs_entry_class_witness :
    ∃ r, sysfs_entry node3_world linux_flags 0 "/sys/class/i2c-dev".toList 0 entry3 =
        Outcome.done r ∧
      r.record = some { nr := 3, name := some "SMBus foo".toList,
                        funcs := some "i2c".toList, algo := some "I2C adapter".toList } := by
  obtain ⟨t, calls, h1, -, h3⟩ := sysfs_entry_class node3_world linux_flags 0
    "/sys/class/i2c-dev".toList 0 entry3 "/sys/class/i2c-dev/i2c-3/name".toList
    "SMBus foo\n".toList "SMBus foo\n".toList [] 3 (by decide) (by decide) (by decide)
    (fun _ => by decide)
  have ht : t = adt.adt_i2c :=
    (((h3 (by decide)).2 (by decide)).2 0x00060001 (by decide)).1 (by decide)
  subst ht
  exact ⟨_, h1, rfl⟩

/-- Claim C3 as stated fails: the entry `i2c--1000000000` has a readable name
and `sscanf` stores the bus number -1000000000; the path of the device node
that `i2c_get_funcs` has `sprintf` write into `char filename[20]`, the directory
`/dev/i2c` followed by a slash and this number, is 20 characters long, 21 bytes
with its NUL, so the behaviour is undefined and no class is assigned. -/
theorem sysfs_entry_class_counterexample :
    open_name "/sys/class/i2c-dev".toList negative_entry =
      Outcome.done (some ("/sys/class/i2c-dev/i2c--1000000000/name".toList,
        "SMBus foo\n".toList)) ∧
    fgets 120 "SMBus foo\n".toList = some ("SMBus foo\n".toList, []) ∧
    sscanf_i2c_d negative_entry.d_name = ScanResult.assigned (-1000000000) ∧
    sprintf "/dev/i2c/%d" [Arg.int (-1000000000)] = "/dev/i2c/-1000000000".toList ∧
    "/dev/i2c/-1000000000".toList.length = 20 ∧
    sysfs_entry node3_world linux_flags 0 "/sys/class/i2c-dev".toList 0 negative_entry =
      Outcome.undefined := by
  refine ⟨by decide, by decide, by decide, by decide, by decide, by decide⟩

theorem open_overflows (W : World) (errno0 : Nat) (v : Int) (h : 10 < (fmt_d v).length) :
    (open_i2c_dev W errno0 v 1).calls.any overflows_filename = true := by
  have h1 : overflows_filename (Syscall.sys_open ("/dev/i2c/".toList ++ fmt_d v)) = true := by
    simp only [overflows_filename, FILENAME_SIZE, decide_eq_true_eq, List.length_append]
    have : "/dev/i2c/".toList.length = 9 := rfl
    omega
  unfold open_i2c_dev
  simp only [sprintf_dev_slash, sprintf_dev_dash]
  split_ifs <;> simp only [List.any_cons, h1, Bool.true_or]

/-- The probe on a host where every `open` fails with `ENOENT`. -/
theorem i2c_get_funcs_missing (F : FuncFlags) (v : Int) :
    i2c_get_funcs missing_world F 0 v =
      if (fmt_d v).length ≤ 10 then
        Outcome.done (adt.adt_unknown,
          [Syscall.sys_open (sprintf "/dev/i2c/%d" [Arg.int v]),
           Syscall.sys_open (sprintf "/dev/i2c-%d" [Arg.int v])])
      else Outcome.undefined := by
  split_ifs with h
  · rw [i2c_get_funcs_fits missing_world F 0 v h]
    rfl
  · rw [i2c_get_funcs, if_pos (open_overflows missing_world 0 v (by omega))]

/-- Claim C5, the code at the failing input: on the names `i2c` and `i2c-` the
scan ends at the end of the input and `sscanf` returns `EOF`, which the test
`!sscanf(...)` does not catch, so the entry is not skipped: its name is
classified and a record is stored with the indeterminate value of `i2cbus` as
its bus number (for a name that is probed, unless the path built from that value
overflows `filename`, which is undefined); on `foo` the scan fails on a mismatch,
`sscanf` returns 0 and the entry is skipped. -/
theorem sysfs_unmatched_name_stored (F : FuncFlags) (indet : Nat → Int) :
    sscanf_i2c_d "i2c".toList = ScanResult.eof ∧
    sscanf_i2c_d "i2c-".toList = ScanResult.eof ∧
    sscanf_i2c_d "foo".toList = ScanResult.nomatch ∧
    sysfs_entry missing_world F 0 "/sys/class/i2c-dev".toList (indet 0) (isa_entry "i2c") =
      Outcome.done
        { record := some { nr := indet 0, name := some "ISA main adapter".toList,
                           funcs := some "isa".toList, algo := some "ISA bus".toList },
          out := [], calls := [] } ∧
    sysfs_entry missing_world F 0 "/sys/class/i2c-dev".toList (indet 0) (isa_entry "i2c-") =
      Outcome.done
        { record := some { nr := indet 0, name := some "ISA main adapter".toList,
                           funcs := some "isa".toList, algo := some "ISA bus".toList },
          out := [], calls := [] } ∧
    sysfs_entry missing_world F 0 "/sys/class/i2c-dev".toList (indet 0) (named_entry "i2c") =
      (if (fmt_d (indet 0)).length ≤ 10 then
        Outcome.done
          { record := some { nr := indet 0, name := some "adapter".toList,
                             funcs := some "unknown".toList, algo := some "N/A".toList },
            out := [],
            calls := [Syscall.sys_open (sprintf "/dev/i2c/%d" [Arg.int (indet 0)]),
                      Syscall.sys_open (sprintf "/dev/i2c-%d" [Arg.int (indet 0)])] }
      else Outcome.undefined) ∧
    sysfs_entry missing_world F 0 "/sys/class/i2c-dev".toList (indet 0) (named_entry "i2c-") =
      (if (fmt_d (indet 0)).length ≤ 10 then
        Outcome.done
          { record := some { nr := indet 0, name := some "adapter".toList,
                             funcs := some "unknown".toList, algo := some "N/A".toList },
            out := [],
            calls := [Syscall.sys_open (sprintf "/dev/i2c/%d" [Arg.int (indet 0)]),
                      Syscall.sys_open (sprintf "/dev/i2c-%d" [Arg.int (indet 0)])] }
      else Outcome.undefined) ∧
    sysfs_entry missing_world F 0 "/sys/class/i2c-dev".toList (indet 0) (named_entry "foo") =
      Outcome.done skipped ∧
    (∃ g, gather_sysfs missing_world F 0 "/sys/class/i2c-dev".toList indet
        [isa_entry "i2c"] = Outcome.done g ∧ g.st.count = 1) ∧
    (∃ g, gather_sysfs missing_world F 0 "/sys/class/i2c-dev".toList indet
        [named_entry "foo"] = Outcome.done g ∧ g.st.count = 0) := by
  have h1 : sysfs_entry missing_world F 0 "/sys/class/i2c-dev".toList (indet 0)
      (named_entry "i2c") =
      match i2c_get_funcs missing_world F 0 (indet 0) with
      | Outcome.done probe => Outcome.done (stored_entry (indet 0) "adapter".toList probe)
      | Outcome.undefined => Outcome.undefined
      | Outcome.out_of_fuel => Outcome.out_of_fuel := rfl
  have h2 : sysfs_entry missing_world F 0 "/sys/class/i2c-dev".toList (indet 0)
      (named_entry "i2c-") =
      match i2c_get_funcs missing_world F 0 (indet 0) with
      | Outcome.done probe => Outcome.done (stored_entry (indet 0) "adapter".toList probe)
      | Outcome.undefined => Outcome.undefined
      | Outcome.out_of_fuel => Outcome.out_of_fuel := rfl
  refine ⟨by decide, by decide, by decide, rfl, rfl, ?_, ?_, rfl, ⟨_, rfl, rfl⟩, ⟨_, rfl, rfl⟩⟩
  · rw [h1, i2c_get_funcs_missing]
    split_ifs <;> rfl
  · rw [h2, i2c_get_funcs_missing]
    split_ifs <;> rfl

/-! ## Growth of the adapter list -/

theorem set_length_append (l : List i2c_adap) (a b : i2c_adap) (t : List i2c_adap) :
    (l ++ a :: t).set l.length b = l ++ b :: t := by
  induction l with
  | nil => rfl
  | cons x xs ih => simp [List.set, ih]

theorem take_length_append (l t : List i2c_adap) (m : Nat) :
    (l ++ t).take (l.length + m) = l ++ t.take m := by
  induction l with
  | nil => simp
  | cons x xs ih =>
    rw [List.cons_append, List.length_cons, Nat.add_right_comm, List.take_succ_cons, ih,
      List.cons_append]

theorem state_of_nil : state_of [] = init_state := rfl

/-- Storing a record in the state reached after the records `recs`. -/
theorem store_adapter_state_of (recs : List i2c_adap) (r : i2c_adap) :
    store_adapter (state_of recs) r = some (state_of (recs ++ [r])) := by
  by_cases hg : (recs.length + 1) % 8 = 0
  · have hm : 8 * (recs.length / 8 + 1) - recs.length = 1 := by omega
    have hm2 : 8 * ((recs.length + 1) / 8 + 1) - (recs.length + 1) = 8 := by omega
    have ht : (recs ++ List.replicate 1 zero_adap).take (recs.length + 1) =
        recs ++ [zero_adap] := by
      rw [take_length_append]
      rfl
    have hlt : recs.length < recs.length + 1 + 8 := by omega
    simp only [store_adapter, state_of, BUNCH, hm, hm2, hg, if_true, more_adapters,
      List.length_append, List.length_replicate, le_refl, List.length_singleton, ht]
    rw [if_pos hlt, List.append_assoc, List.singleton_append, set_length_append]
    simp
  · obtain ⟨m, hm⟩ : ∃ m, 8 * (recs.length / 8 + 1) - recs.length = m + 1 ∧
        8 * ((recs.length + 1) / 8 + 1) - (recs.length + 1) = m := by
      refine ⟨8 * (recs.length / 8 + 1) - recs.length - 1, ?_, ?_⟩ <;> omega
    have hlt : recs.length < recs.length + (zero_adap :: List.replicate m zero_adap).length := by
      simp
    simp only [store_adapter, state_of, BUNCH, hm.1, hm.2, hg, if_false, List.length_append,
      List.length_singleton, List.replicate_succ]
    rw [if_pos hlt, set_length_append]
    simp

theorem store_all_state_of (recs rs : List i2c_adap) :
    store_all (state_of recs) rs = some (state_of (recs ++ rs)) := by
  induction rs generalizing recs with
  | nil => simp [store_all]
  | cons r rs ih =>
    rw [store_all, store_adapter_state_of]
    simp only []
    rw [ih]
    simp

theorem state_of_length (recs : List i2c_adap) :
    (state_of recs).adapters.length = 8 * (recs.length / 8 + 1) := by
  simp only [state_of, BUNCH, List.length_append, List.length_replicate]
  omega

theorem state_of_take (recs : List i2c_adap) :
    (state_of recs).adapters.take recs.length = recs := by
  simp [state_of]

theorem state_of_zero (recs : List i2c_adap) (i : Nat) (h1 : recs.length ≤ i)
    (h2 : i < 8 * (recs.length / 8 + 1)) : (state_of recs).adapters[i]? = some zero_adap := by
  simp only [state_of, BUNCH]
  rw [List.getElem?_append_right h1, List.getElem?_replicate]
  rw [if_pos (by omega)]

/-- The state after `recs` is the records followed by a terminator. -/
theorem state_of_terminated (recs : List i2c_adap) :
    ∃ rest, (state_of recs).adapters = recs ++ zero_adap :: rest := by
  obtain ⟨m, hm⟩ : ∃ m, BUNCH * (recs.length / BUNCH + 1) - recs.length = m + 1 := by
    refine ⟨BUNCH * (recs.length / BUNCH + 1) - recs.length - 1, ?_⟩
    simp only [BUNCH]
    omega
  exact ⟨List.replicate m zero_adap, by simp only [state_of, hm, List.replicate_succ]⟩

theorem legacy_line_named {indet : Int} {s : List Char} {r : i2c_adap}
    (h : legacy_line indet s = some r) : r.name ≠ none := by
  unfold legacy_line at h
  split at h
  · cases h
  · split at h
    · cases h
    · split at h
      · cases h
      · injection h with h
        subst h
        simp

theorem legacy_loop_state_of (indet : Nat → Int) (fuel : Nat) (stream : List Char)
    (recs : List i2c_adap) (st : GatherState) (hnamed : ∀ a ∈ recs, a.name ≠ none)
    (h : legacy_loop indet fuel stream (state_of recs) = Outcome.done st) :
    ∃ rs, st = state_of rs ∧ ∀ a ∈ rs, a.name ≠ none := by
  induction fuel generalizing stream recs with
  | zero => simp [legacy_loop] at h
  | succ k ih =>
    unfold legacy_loop at h
    split at h
    · injection h with h
      exact ⟨recs, h.symm, hnamed⟩
    · next s rest hf =>
      split at h
      · cases h
      · next r hr =>
        rw [store_adapter_state_of] at h
        simp only [] at h
        refine ih rest (recs ++ [r]) ?_ h
        intro a ha
        rw [List.mem_append, List.mem_singleton] at ha
        rcases ha with ha | ha
        · exact hnamed a ha
        · subst ha
          exact legacy_line_named hr

theorem stored_entry_record (i2cbus : Int) (x : List Char) (probe : adt × List Syscall)
    (a : i2c_adap) (h : (stored_entry i2cbus x probe).record = some a) : a.name ≠ none := by
  have ha := Option.some.inj h
  rw [← ha]
  simp

theorem sprintf_read_error (n : List Char) :
    sprintf "%s: read error\n" [Arg.str n] = n ++ ": read error\n".toList := by
  simp [sprintf, format, padField_zero, isDigitOf, digitVal]

/-- A turn of the sysfs loop that ends stores only a named record, and what it
writes is a read-error line on standard error. -/
theorem sysfs_entry_done (W : World) (F : FuncFlags) (errno0 : Nat) (sysfs : List Char)
    (indet : Int) (e : SysfsEntry) (r : EntryResult)
    (h : sysfs_entry W F errno0 sysfs indet e = Outcome.done r) :
    (∀ a, r.record = some a → a.name ≠ none) ∧
    (∀ w ∈ r.out, w.1 = OutStream.stderr ∧ ∃ n, w.2 = n ++ ": read error\n".toList) := by
  have hs : (∀ a, skipped.record = some a → a.name ≠ none) ∧
      (∀ w ∈ skipped.out, w.1 = OutStream.stderr ∧ ∃ n, w.2 = n ++ ": read error\n".toList) := by
    simp [skipped]
  have hst : ∀ (i2cbus : Int) (x : List Char) (probe : adt × List Syscall),
      (∀ a, (stored_entry i2cbus x probe).record = some a → a.name ≠ none) ∧
      (∀ w ∈ (stored_entry i2cbus x probe).out,
        w.1 = OutStream.stderr ∧ ∃ n, w.2 = n ++ ": read error\n".toList) := by
    intro i2cbus x probe
    exact ⟨fun a ha => stored_entry_record i2cbus x probe a ha, by simp [stored_entry]⟩
  unfold sysfs_entry at h
  split_ifs at h
  · injection h with h
    rw [← h]
    exact hs
  · injection h with h
    rw [← h]
    exact hs
  · split at h
    · cases h
    · cases h
    · injection h with h
      rw [← h]
      exact hs
    · next n bytes _ =>
      split at h
      · injection h with h
        rw [← h]
        refine ⟨by simp, ?_⟩
        intro w hw
        simp only [List.mem_singleton] at hw
        subst hw
        exact ⟨rfl, n, sprintf_read_error n⟩
      · simp only [] at h
        split_ifs at h
        · injection h with h
          rw [← h]
          exact hs
        · injection h with h
          rw [← h]
          exact hst _ _ _
        · split at h
          · injection h with h
            rw [← h]
            exact hst _ _ _
          · cases h
          · cases h

/-- The sysfs loop, when it ends, leaves the records stored, all named, followed
by zeroed slots, and has written read-error lines only. -/
theorem sysfs_loop_state_of (W : World) (F : FuncFlags) (errno0 : Nat) (sysfs : List Char)
    (indet : Nat → Int) (entries : List SysfsEntry) (g g1 : Gathered) (recs : List i2c_adap)
    (hg : g.st = state_of recs) (hnamed : ∀ a ∈ recs, a.name ≠ none)
    (hout : ∀ w ∈ g.out, w.1 = OutStream.stderr ∧ ∃ n, w.2 = n ++ ": read error\n".toList)
    (h : sysfs_loop W F errno0 sysfs indet entries g = Outcome.done g1) :
    ∃ rs, g1.st = state_of rs ∧ (∀ a ∈ rs, a.name ≠ none) ∧
      ∀ w ∈ g1.out, w.1 = OutStream.stderr ∧ ∃ n, w.2 = n ++ ": read error\n".toList := by
  induction entries generalizing g recs with
  | nil =>
    simp only [sysfs_loop] at h
    injection h with h
    subst h
    exact ⟨recs, hg, hnamed, hout⟩
  | cons e es ih =>
    unfold sysfs_loop at h
    split at h
    · cases h
    · cases h
    · next r hr =>
      obtain ⟨hrec, hrout⟩ := sysfs_entry_done W F errno0 sysfs _ e r hr
      have hout2 : ∀ w ∈ g.out ++ r.out,
          w.1 = OutStream.stderr ∧ ∃ n, w.2 = n ++ ": read error\n".toList := by
        intro w hw
        rcases List.mem_append.mp hw with hw | hw
        · exact hout w hw
        · exact hrout w hw
      split at h
      · exact ih { st := g.st, out := g.out ++ r.out, calls := g.calls ++ r.calls } recs hg
          hnamed hout2 h
      · next a ha =>
        rw [hg, store_adapter_state_of] at h
        simp only [] at h
        refine ih _ (recs ++ [a]) rfl ?_ hout2 h
        intro b hb
        rw [List.mem_append, List.mem_singleton] at hb
        rcases hb with hb | hb
        · exact hnamed b hb
        · subst hb
          exact hrec _ ha

/-- The sysfs loop ends whenever the body of each turn does: the store never
leaves the array. -/
theorem sysfs_loop_total (W : World) (F : FuncFlags) (errno0 : Nat) (sysfs : List Char)
    (indet : Nat → Int) (entries : List SysfsEntry) (g : Gathered) (recs : List i2c_adap)
    (hg : g.st = state_of recs)
    (hbody : ∀ e ∈ entries, ∀ x, ∃ r, sysfs_entry W F errno0 sysfs x e = Outcome.done r) :
    ∃ g1, sysfs_loop W F errno0 sysfs indet entries g = Outcome.done g1 := by
  induction entries generalizing g recs with
  | nil => exact ⟨g, rfl⟩
  | cons e es ih =>
    obtain ⟨r, hr⟩ := hbody e (List.mem_cons_self _ _) (indet g.st.count)
    have hes : ∀ e1 ∈ es, ∀ x, ∃ r, sysfs_entry W F errno0 sysfs x e1 = Outcome.done r :=
      fun e1 he1 => hbody e1 (List.mem_cons_of_mem _ he1)
    unfold sysfs_loop
    rw [hr]
    simp only []
    split
    · exact ih { st := g.st, out := g.out ++ r.out, calls := g.calls ++ r.calls } recs hg hes
    · next a ha =>
      rw [hg, store_adapter_state_of]
      simp only []
      exact ih _ (recs ++ [a]) rfl hes

theorem fgets_take_length (room : Nat) (s : List Char) :
    (fgets_take room s).2.length ≤ s.length := by
  induction s generalizing room with
  | nil => cases room <;> simp [fgets_take]
  | cons c cs ih =>
    cases room with
    | zero => simp [fgets_take]
    | succ r =>
      unfold fgets_take
      split_ifs
      · simp
      · have := ih r
        simp only [List.length_cons]
        omega

theorem fgets_shorter {stream s rest : List Char} (h : fgets 100 stream = some (s, rest)) :
    rest.length < stream.length := by
  unfold fgets at h
  split_ifs at h with hs
  injection h with h
  cases stream with
  | nil => exact absurd rfl hs
  | cons c cs =>
    have hrest : rest = (fgets_take 99 (c :: cs)).2 := by rw [h]
    rw [hrest]
    unfold fgets_take
    split_ifs
    · simp
    · have := fgets_take_length 98 cs
      simp only [List.length_cons]
      omega

/-- The fuel `gather_legacy` gives the loop is never used up. -/
theorem legacy_loop_fuel (indet : Nat → Int) (fuel : Nat) (stream : List Char)
    (st : GatherState) (h : stream.length < fuel) :
    legacy_loop indet fuel stream st ≠ Outcome.out_of_fuel := by
  induction fuel generalizing stream st with
  | zero => omega
  | succ k ih =>
    unfold legacy_loop
    split
    · simp
    · next s rest hf =>
      have hlt := fgets_shorter hf
      split
      · simp
      · split
        · simp
        · exact ih _ _ (by omega)

/-- Claim C10: the list starts with 8 zeroed slots and no record; a call of
`more_adapters` with `n` the size of the list appends 8 zeroed slots; after any
`k` records are stored the size is `8 * (k / 8 + 1)`, the first `k` slots are the
records, slot `k` and all later ones are zeroed, and when the next store grows
the list, `n = count + 1` is its size; the legacy loop never uses up its fuel,
and the list either discovery path returns is reached by storing a sequence of
named records from the initial list; the sysfs path returns whenever the body of
each turn is defined (no path overflows its buffer): the store never leaves the
list. -/
theorem gather_growth :
    init_state.adapters.length = 8 ∧ init_state.count = 0 ∧
    (∀ (adapters : List i2c_adap) (n : Nat), n = adapters.length →
      more_adapters adapters n = some (adapters ++ List.replicate 8 zero_adap)) ∧
    (∀ recs : List i2c_adap, ∃ st,
      store_all init_state recs = some st ∧
      st.count = recs.length ∧
      st.adapters.length = 8 * (recs.length / 8 + 1) ∧
      st.adapters.take recs.length = recs ∧
      recs.length < st.adapters.length ∧
      (∀ i, recs.length ≤ i → i < st.adapters.length → st.adapters[i]? = some zero_adap) ∧
      ((st.count + 1) % BUNCH = 0 → st.count + 1 = st.adapters.length)) ∧
    (∀ (indet : Nat → Int) (content : List Char),
      gather_legacy indet content ≠ Outcome.out_of_fuel) ∧
    (∀ (indet : Nat → Int) (content : List Char) (st : GatherState),
      gather_legacy indet content = Outcome.done st →
      ∃ recs, store_all init_state recs = some st ∧ ∀ a ∈ recs, a.name ≠ none) ∧
    (∀ (W : World) (F : FuncFlags) (errno0 : Nat) (sysfs : List Char) (indet : Nat → Int)
      (entries : List SysfsEntry) (g : Gathered),
      gather_sysfs W F errno0 sysfs indet entries = Outcome.done g →
      ∃ recs, store_all init_state recs = some g.st ∧ ∀ a ∈ recs, a.name ≠ none) ∧
    (∀ (W : World) (F : FuncFlags) (errno0 : Nat) (sysfs : List Char) (indet : Nat → Int)
      (entries : List SysfsEntry),
      (∀ e ∈ entries, ∀ x, ∃ r, sysfs_entry W F errno0 sysfs x e = Outcome.done r) →
      ∃ g recs, gather_sysfs W F errno0 sysfs indet entries = Outcome.done g ∧
        store_all init_state recs = some g.st ∧ ∀ a ∈ recs, a.name ≠ none) := by
  refine ⟨rfl, rfl, ?_, ?_, ?_, ?_, ?_, ?_⟩
  · intro adapters n hn
    subst hn
    simp [more_adapters, BUNCH]
  · intro recs
    have hlen := state_of_length recs
    refine ⟨state_of recs, ?_, rfl, hlen, state_of_take recs, ?_, ?_, ?_⟩
    · rw [← state_of_nil, store_all_state_of, List.nil_append]
    · rw [hlen]
      omega
    · intro i h1 h2
      exact state_of_zero recs i h1 (hlen ▸ h2)
    · intro h
      rw [hlen]
      simp only [state_of, BUNCH] at h ⊢
      omega
  · intro indet content
    exact legacy_loop_fuel indet _ content _ (by omega)
  · intro indet content st h
    obtain ⟨rs, h1, h2⟩ := legacy_loop_state_of indet _ content [] st (by simp)
      (by rw [state_of_nil]; exact h)
    refine ⟨rs, ?_, h2⟩
    rw [← state_of_nil, store_all_state_of, List.nil_append, h1]
  · intro W F errno0 sysfs indet entries g h
    obtain ⟨rs, h2, h3, -⟩ := sysfs_loop_state_of W F errno0 sysfs indet entries
      { st := init_state, out := [], calls := [] } g [] rfl (by simp) (by simp) h
    refine ⟨rs, ?_, h3⟩
    rw [← state_of_nil, store_all_state_of, List.nil_append, h2]
  · intro W F errno0 sysfs indet entries hbody
    obtain ⟨g, h⟩ := sysfs_loop_total W F errno0 sysfs indet entries
      { st := init_state, out := [], calls := [] } [] rfl hbody
    obtain ⟨rs, h2, h3, -⟩ := sysfs_loop_state_of W F errno0 sysfs indet entries
      { st := init_state, out := [], calls := [] } g [] rfl (by simp) (by simp) h
    refine ⟨g, rs, h, ?_, h3⟩
    rw [← state_of_nil, store_all_state_of, List.nil_append, h2]

/-- Claim C10 at a legacy file of one line: the list returned is reached by
storing named records. -/
theorem gather_growth_witness :
    ∃ recs, store_all init_state recs = some (state_of [short_line.record]) ∧
      ∀ a ∈ recs, a.name ≠ none :=
  gather_growth.2.2.2.2.2.1 (fun _ => 0) short_line.text (state_of [short_line.record])
    (by decide)

/-! ## The legacy file -/

theorem fgets_take_line (body rest : List Char) (room : Nat)
    (hn : ∀ c ∈ body, c ≠ '\n') (hr : body.length < room) :
    fgets_take room (body ++ '\n' :: rest) = (body ++ ['\n'], rest) := by
  induction body generalizing room with
  | nil =>
    cases room with
    | zero => simp at hr
    | succ r => simp [fgets_take]
  | cons c cs ih =>
    cases room with
    | zero => simp at hr
    | succ r =>
      have hc : c ≠ '\n' := hn c (List.mem_cons_self _ _)
      have hcs : ∀ d ∈ cs, d ≠ '\n' := fun d hd => hn d (List.mem_cons_of_mem _ hd)
      have hlen : cs.length < r := by
        simp only [List.length_cons] at hr
        omega
      rw [List.cons_append, fgets_take, if_neg hc, ih r hcs hlen]
      rfl

theorem strrchr_split_none (c : Char) (b : List Char) (h : c ∉ b) :
    strrchr_split c b = none := by
  induction b with
  | nil => rfl
  | cons x xs ih =>
    have hx : x ≠ c := fun hxc => h (hxc ▸ List.mem_cons_self _ _)
    simp [strrchr_split, ih (fun hm => h (List.mem_cons_of_mem _ hm)), hx]

/-- Cutting at the last occurrence of `c`. -/
theorem strrchr_split_append (c : Char) (a b : List Char) (h : c ∉ b) :
    strrchr_split c (a ++ c :: b) = some (a, b) := by
  induction a with
  | nil => simp [strrchr_split, strrchr_split_none c b h]
  | cons x xs ih => simp [strrchr_split, ih]

theorem rtrim_loop_le (s : List Char) (k : Nat) : rtrim_loop s k ≤ k := by
  induction k with
  | zero => simp [rtrim_loop]
  | succ i ih =>
    unfold rtrim_loop
    split_ifs
    · omega
    · omega

theorem rtrim_loop_take (s : List Char) (k : Nat) (hk : k ≤ s.length) :
    s.take (rtrim_loop s k) = (s.take k).rdropWhile is_pad := by
  induction k with
  | zero => simp [rtrim_loop]
  | succ i ih =>
    have hi : i < s.length := by omega
    have hget : s[i]? = some s[i] := List.getElem?_eq_getElem hi
    have hd : s.getD i '\x00' = s[i] := List.getD_eq_getElem s _ hi
    rw [List.take_succ, hget, Option.toList_some, List.rdropWhile_concat]
    unfold rtrim_loop
    rw [hd]
    split_ifs
    · exact ih (by omega)
    · rw [List.take_succ, hget, Option.toList_some]

/-- The string `rtrim` leaves is the argument without its trailing spaces and
newlines, and the value returned is its length plus one. -/
theorem rtrim_eq_strip (s : List Char) :
    rtrim s = (strip s, ((strip s).length : Int) + 1) := by
  have h := rtrim_loop_take s s.length (le_refl _)
  rw [List.take_length] at h
  have hl : (strip s).length = rtrim_loop s s.length := by
    rw [strip, ← h, List.length_take]
    exact Nat.min_eq_left (rtrim_loop_le s s.length)
  rw [rtrim, h, hl]
  rfl

theorem strip_newline (s : List Char) : strip (s ++ ['\n']) = strip s := by
  rw [strip, List.rdropWhile_concat_pos]
  · rfl
  · decide

theorem field_ok_mem {f : List Char} (h : field_ok f = true) {c : Char} (hc : c ∈ f) :
    c ≠ '\t' ∧ c ≠ '\n' ∧ c ≠ '\x00' := by
  have := List.all_eq_true.mp h c hc
  simpa [and_assoc] using this

theorem digits_mem {ds : List Char} (h : ds.all (isDigitOf 10) = true) {c : Char}
    (hc : c ∈ ds) : c ≠ '\t' ∧ c ≠ '\n' ∧ c ≠ '\x00' := by
  have h1 := isDigitOf_toNat_ge (List.all_eq_true.mp h c hc)
  refine ⟨?_, ?_, ?_⟩ <;>
  · intro hcc
    subst hcc
    revert h1
    decide

theorem well_formed_iff (l : LegacyLine) :
    l.well_formed = true ↔
      l.num ≠ [] ∧ l.num.all (isDigitOf 10) = true ∧ field_ok l.typ = true ∧
        field_ok l.name = true ∧ field_ok l.algo = true := by
  simp [LegacyLine.well_formed, and_assoc]

theorem cstr_eq_self {s : List Char} (h : ∀ c ∈ s, c ≠ '\x00') : cstr s = s := by
  rw [cstr, List.takeWhile_eq_self_iff]
  intro c hc
  simpa using h c hc

theorem toInt32_of_int {n : Nat} (h : n ≤ 2147483647) :
    toInt32 (clampLong false n) = (n : Int) := by
  have h1 : clampLong false n = (n : Int) := by
    simp only [clampLong, LONG_MAX, Bool.false_eq_true, if_false]
    rw [if_neg]
    omega
  rw [h1, toInt32]
  omega

theorem scan_d_digits {num : List Char} (hne : num ≠ [])
    (hd : num.all (isDigitOf 10) = true) (hv : digitsValue 10 num ≤ 2147483647) :
    scan_d num = ScanResult.assigned (digitsValue 10 num : Int) := by
  cases num with
  | nil => exact absurd rfl hne
  | cons c r =>
    have hc : isDigitOf 10 c = true := by
      simp only [List.all_cons, Bool.and_eq_true] at hd
      exact hd.1
    have h1 : c :: r ≠ [] := by simp
    simp only [scan_d, skipSpace_digit r hc, scanSign_digit r hc, takeWhile_of_all hd,
      toInt32_of_int hv, if_neg h1]

theorem sscanf_i2c_d_digits {num : List Char} (hne : num ≠ [])
    (hd : num.all (isDigitOf 10) = true) (hv : digitsValue 10 num ≤ 2147483647) :
    sscanf_i2c_d ("i2c-".toList ++ num) = ScanResult.assigned (digitsValue 10 num : Int) := by
  have hm : match_literal "i2c-".toList ("i2c-".toList ++ num) = LitMatch.rest num := by
    simp [match_literal]
  simp only [sscanf_i2c_d, hm, scan_d_digits hne hd hv]

theorem fits_iff (l : LegacyLine) :
    l.fits = true ↔ l.text.length ≤ 99 ∧ l.bus ≤ 2147483647 := by
  simp [LegacyLine.fits]

theorem mem_body {l : LegacyLine} {c : Char} (hc : c ∈ l.body) :
    c ∈ "i2c-".toList ∨ c ∈ l.num ∨ c = '\t' ∨ c ∈ l.typ ∨ c ∈ l.name ∨ c ∈ l.algo := by
  simp only [LegacyLine.body, List.mem_append, List.mem_cons] at hc
  tauto

theorem body_no_newline {l : LegacyLine} (hwf : l.well_formed = true) :
    ∀ c ∈ l.body, c ≠ '\n' := by
  obtain ⟨-, hd, ht, hn, ha⟩ := (well_formed_iff l).mp hwf
  intro c hc
  rcases mem_body hc with h | h | h | h | h | h
  · intro hcc
    subst hcc
    exact absurd h (by decide)
  · exact (digits_mem hd h).2.1
  · subst h
    decide
  · exact (field_ok_mem ht h).2.1
  · exact (field_ok_mem hn h).2.1
  · exact (field_ok_mem ha h).2.1

theorem body_no_nul {l : LegacyLine} (hwf : l.well_formed = true) :
    ∀ c ∈ l.body, c ≠ '\x00' := by
  obtain ⟨-, hd, ht, hn, ha⟩ := (well_formed_iff l).mp hwf
  intro c hc
  rcases mem_body hc with h | h | h | h | h | h
  · intro hcc
    subst hcc
    exact absurd h (by decide)
  · exact (digits_mem hd h).2.2
  · subst h
    decide
  · exact (field_ok_mem ht h).2.2
  · exact (field_ok_mem hn h).2.2
  · exact (field_ok_mem ha h).2.2

/-- The body of the legacy loop on a well-formed line that fits. -/
theorem legacy_line_text (indet : Int) (l : LegacyLine) (hwf : l.well_formed = true)
    (hv : l.bus ≤ 2147483647) : legacy_line indet l.text = some l.record := by
  obtain ⟨hne, hd, ht, hn, ha⟩ := (well_formed_iff l).mp hwf
  have hnul : ∀ c ∈ l.text, c ≠ '\x00' := by
    intro c hc
    rw [LegacyLine.text, List.mem_append, List.mem_singleton] at hc
    rcases hc with hc | hc
    · exact body_no_nul hwf c hc
    · subst hc
      decide
  have e1 : l.text = ("i2c-".toList ++ l.num ++ '\t' :: l.typ ++ '\t' :: l.name) ++
      '\t' :: (l.algo ++ ['\n']) := by
    simp [LegacyLine.text, LegacyLine.body]
  have e2 : "i2c-".toList ++ l.num ++ '\t' :: l.typ ++ '\t' :: l.name =
      ("i2c-".toList ++ l.num ++ '\t' :: l.typ) ++ '\t' :: l.name := by
    simp
  have e3 : "i2c-".toList ++ l.num ++ '\t' :: l.typ =
      ("i2c-".toList ++ l.num) ++ '\t' :: l.typ := by
    simp
  have s1 : strrchr_split '\t' l.text =
      some ("i2c-".toList ++ l.num ++ '\t' :: l.typ ++ '\t' :: l.name, l.algo ++ ['\n']) := by
    rw [e1]
    apply strrchr_split_append
    intro hm
    rw [List.mem_append, List.mem_singleton] at hm
    rcases hm with hm | hm
    · exact (field_ok_mem ha hm).1 rfl
    · revert hm
      decide
  have s2 : strrchr_split '\t' ("i2c-".toList ++ l.num ++ '\t' :: l.typ ++ '\t' :: l.name) =
      some ("i2c-".toList ++ l.num ++ '\t' :: l.typ, l.name) := by
    rw [e2]
    exact strrchr_split_append _ _ _ (fun hm => (field_ok_mem hn hm).1 rfl)
  have s3 : strrchr_split '\t' ("i2c-".toList ++ l.num ++ '\t' :: l.typ) =
      some ("i2c-".toList ++ l.num, l.typ) := by
    rw [e3]
    exact strrchr_split_append _ _ _ (fun hm => (field_ok_mem ht hm).1 rfl)
  simp only [legacy_line, cstr_eq_self hnul, s1, s2, s3, sscanf_i2c_d_digits hne hd hv,
    rtrim_eq_strip, strip_newline, LegacyLine.record, LegacyLine.bus]

theorem fgets_text (l : LegacyLine) (rest : List Char) (hwf : l.well_formed = true)
    (hlen : l.text.length ≤ 99) : fgets 100 (l.text ++ rest) = some (l.text, rest) := by
  have hlen2 : l.body.length < 99 := by
    rw [LegacyLine.text, List.length_append, List.length_singleton] at hlen
    omega
  have hne2 : l.text ++ rest ≠ [] := by
    simp [LegacyLine.text]
  rw [fgets, if_neg hne2]
  rw [LegacyLine.text, List.append_assoc, List.singleton_append,
    fgets_take_line _ _ _ (body_no_newline hwf) hlen2]

theorem legacy_loop_file (indet : Nat → Int) (ls : List LegacyLine) (recs : List i2c_adap)
    (fuel : Nat) (hfuel : (legacy_file ls).length < fuel)
    (h : ∀ l ∈ ls, l.well_formed = true ∧ l.fits = true) :
    legacy_loop indet fuel (legacy_file ls) (state_of recs) =
      Outcome.done (state_of (recs ++ ls.map LegacyLine.record)) := by
  induction ls generalizing recs fuel with
  | nil =>
    cases fuel with
    | zero => simp at hfuel
    | succ k => simp [legacy_loop, legacy_file, fgets]
  | cons l ls ih =>
    cases fuel with
    | zero => simp at hfuel
    | succ k =>
      obtain ⟨hwf, hfit⟩ := h l (List.mem_cons_self _ _)
      obtain ⟨hlen, hv⟩ := (fits_iff l).mp hfit
      have hpos : 0 < l.text.length := by
        simp [LegacyLine.text]
      have hk : (legacy_file ls).length < k := by
        simp only [legacy_file, List.length_append] at hfuel
        omega
      rw [legacy_file, legacy_loop]
      simp only [fgets_text l _ hwf hlen, legacy_line_text _ l hwf hv, store_adapter_state_of]
      rw [ih (recs ++ [l.record]) k hk (fun m hm => h m (List.mem_cons_of_mem _ hm))]
      simp

/-- Claim C4, amended: for a file of well-formed legacy lines that each fit the
buffer (at most 99 bytes with the newline) and whose bus number is an `int`, the
legacy path returns, with one record per line in order, whose bus number is the
value of the numeral after `i2c-` and whose name, functional-class and
description are the name, type and algo fields with exactly their trailing
spaces and newlines removed. -/
theorem gather_legacy_records (indet : Nat → Int) (ls : List LegacyLine)
    (h : ∀ l ∈ ls, l.well_formed = true ∧ l.fits = true) :
    ∃ st, gather_legacy indet (legacy_file ls) = Outcome.done st ∧
      st.count = ls.length ∧
      st.adapters.take ls.length = ls.map LegacyLine.record := by
  refine ⟨state_of (ls.map LegacyLine.record), ?_, ?_, ?_⟩
  · rw [gather_legacy, ← state_of_nil, legacy_loop_file indet ls [] _ (by omega) h,
      List.nil_append]
  · simp [state_of]
  · have := state_of_take (ls.map LegacyLine.record)
    rwa [List.length_map] at this

/-- Claim C4, amended, at a file of one line of 83 bytes. -/
theorem gather_legacy_records_witness :
    ∃ st, gather_legacy (fun _ => 0) (legacy_file [short_line]) = Outcome.done st ∧
      st.count = 1 ∧
      st.adapters.take 1 =
        [{ nr := 0, name := some "SMBus I801 adapter at 0400".toList,
           funcs := some "smbus".toList, algo := some "Non-I2C SMBus adapter".toList }] :=
  gather_legacy_records (fun _ => 0) [short_line] (by decide)

/-- Claim C4 as stated fails: on a well-formed line of 118 bytes `fgets` stops
after 99, and the legacy path stores through the NULL that `strrchr` returns
for the rest of the line, which has no tab, so no record is returned; on a
well-formed line of 29 bytes with bus number 4294967296 the record stored has
bus number 0. -/
theorem gather_legacy_records_counterexample :
    long_line.well_formed = true ∧ long_line.text.length = 118 ∧
    fgets 100 long_line.text =
      some ("i2c-0\tsmbus\tname\t".toList ++ List.replicate 82 'a',
            List.replicate 18 'a' ++ ['\n']) ∧
    strrchr_split '\t' (cstr (List.replicate 18 'a' ++ ['\n'])) = none ∧
    gather_legacy (fun _ => 0) long_line.text = Outcome.undefined ∧
    big_line.well_formed = true ∧ big_line.text.length = 29 ∧
    big_line.bus = 4294967296 ∧
    gather_legacy (fun _ => 7) big_line.text =
      Outcome.done (state_of [{ nr := 0, name := some "name".toList,
                                funcs := some "i2c".toList, algo := some "algo".toList }]) := by
  decide

/-! ## Round trip through the `/proc/bus/i2c` format -/

theorem split_on_ne_nil (sep : Char) (s : List Char) : split_on sep s ≠ [] := by
  cases s with
  | nil => simp [split_on]
  | cons c cs =>
    unfold split_on
    split_ifs
    · simp
    · split <;> simp

theorem split_on_single (sep : Char) (a : List Char) (h : sep ∉ a) : split_on sep a = [a] := by
  induction a with
  | nil => rfl
  | cons c cs ih =>
    have hc : c ≠ sep := fun hcs => h (hcs ▸ List.mem_cons_self _ _)
    rw [split_on, if_neg hc, ih (fun hm => h (List.mem_cons_of_mem _ hm))]

theorem split_on_append (sep : Char) (a rest : List Char) (h : sep ∉ a) :
    split_on sep (a ++ sep :: rest) = a :: split_on sep rest := by
  induction a with
  | nil => simp [split_on]
  | cons c cs ih =>
    have hc : c ≠ sep := fun hcs => h (hcs ▸ List.mem_cons_self _ _)
    rw [List.cons_append, split_on, if_neg hc, ih (fun hm => h (List.mem_cons_of_mem _ hm))]

theorem split_on_join_lines (bodies : List (List Char)) (h : ∀ b ∈ bodies, '\n' ∉ b) :
    (split_on '\n' (join_lines bodies)).dropLast = bodies := by
  induction bodies with
  | nil => rfl
  | cons b bs ih =>
    rw [join_lines, split_on_append _ _ _ (h b (List.mem_cons_self _ _))]
    obtain ⟨x, xs, hx⟩ := List.exists_cons_of_ne_nil (split_on_ne_nil '\n' (join_lines bs))
    rw [hx, List.dropLast_cons₂, ← hx, ih (fun c hc => h c (List.mem_cons_of_mem _ hc))]

theorem mem_strip {f : List Char} {c : Char} (h : c ∈ strip f) : c ∈ f := by
  rw [strip, List.rdropWhile, List.mem_reverse] at h
  exact List.mem_reverse.mp ((List.dropWhile_sublist _).subset h)

theorem strip_append_spaces (s : List Char) (k : Nat) :
    strip (s ++ List.replicate k ' ') = strip s := by
  induction k with
  | zero => simp
  | succ k ih =>
    rw [List.replicate_succ', ← List.append_assoc, strip, List.rdropWhile_concat_pos _ _ _
      (by decide)]
    exact ih

theorem strip_padField (w : Nat) (f : List Char) :
    strip (padField true w (strip f)) = strip f := by
  simp only [padField, if_true, strip_append_spaces]
  exact List.rdropWhile_idempotent _ _

theorem mem_padField {w : Nat} {s : List Char} {c : Char} (h : c ∈ padField true w s) :
    c ∈ s ∨ c = ' ' := by
  simp only [padField, if_true, List.mem_append] at h
  rcases h with h | h
  · exact Or.inl h
  · exact Or.inr (List.eq_of_mem_replicate h)

/-- A line of four tab-separated fields read back. -/
theorem read_back_line_fields (num t n a : List Char) (hne : num ≠ [])
    (hd : num.all (isDigitOf 10) = true)
    (ht : '\t' ∉ t) (hn : '\t' ∉ n) (ha : '\t' ∉ a) :
    read_back_line ("i2c-".toList ++ num ++ '\t' :: t ++ '\t' :: n ++ '\t' :: a) =
      some ((digitsValue 10 num : Int), strip t, strip n, strip a) := by
  have h0 : '\t' ∉ "i2c-".toList ++ num := by
    intro hm
    rw [List.mem_append] at hm
    rcases hm with hm | hm
    · exact absurd hm (by decide)
    · exact (digits_mem hd hm).1 rfl
  have e : "i2c-".toList ++ num ++ '\t' :: t ++ '\t' :: n ++ '\t' :: a =
      ("i2c-".toList ++ num) ++ '\t' :: (t ++ '\t' :: (n ++ '\t' :: a)) := by
    simp
  have hs : split_on '\t' ("i2c-".toList ++ num ++ '\t' :: t ++ '\t' :: n ++ '\t' :: a) =
      ["i2c-".toList ++ num, t, n, a] := by
    rw [e, split_on_append _ _ _ h0, split_on_append _ _ _ ht, split_on_append _ _ _ hn,
      split_on_single _ _ ha]
  have h1 : ("i2c-".toList ++ num).take 4 = "i2c-".toList := rfl
  have h2 : ("i2c-".toList ++ num).drop 4 = num := rfl
  simp only [read_back_line, hs, h1, h2]
  simp [hne, hd]

theorem fmt_d_nat (n : Nat) : fmt_d (n : Int) = natDigits n := by
  simp [fmt_d]

theorem read_back_line_body (l : LegacyLine) (hwf : l.well_formed = true) :
    read_back_line l.body = some ((l.bus : Int), strip l.typ, strip l.name, strip l.algo) := by
  obtain ⟨hne, hd, ht, hn, ha⟩ := (well_formed_iff l).mp hwf
  exact read_back_line_fields l.num l.typ l.name l.algo hne hd
    (fun h => (field_ok_mem ht h).1 rfl) (fun h => (field_ok_mem hn h).1 rfl)
    (fun h => (field_ok_mem ha h).1 rfl)

/-- The line rendered for the record of a legacy line, without its newline. -/
theorem proc_line_record (l : LegacyLine) :
    proc_line l.record =
      ("i2c-".toList ++ natDigits l.bus ++ '\t' :: padField true 10 (strip l.typ) ++
        '\t' :: padField true 32 (strip l.name) ++ '\t' :: strip l.algo) ++ ['\n'] := by
  rw [LegacyLine.record, proc_line_eq, fmt_d_nat]

theorem rendered_read_back (l : LegacyLine) (hwf : l.well_formed = true) :
    read_back_line ("i2c-".toList ++ natDigits l.bus ++ '\t' :: padField true 10 (strip l.typ) ++
        '\t' :: padField true 32 (strip l.name) ++ '\t' :: strip l.algo) =
      some ((l.bus : Int), strip l.typ, strip l.name, strip l.algo) := by
  obtain ⟨hne, hd, ht, hn, ha⟩ := (well_formed_iff l).mp hwf
  have hpad : ∀ (w : Nat) (f : List Char), field_ok f = true → '\t' ∉ padField true w (strip f) := by
    intro w f hf hm
    rcases mem_padField hm with h | h
    · exact (field_ok_mem hf (mem_strip h)).1 rfl
    · exact absurd h (by decide)
  rw [read_back_line_fields _ _ _ _ (natDigits_ne_nil _) (natDigits_all _) (hpad 10 _ ht)
    (hpad 32 _ hn) (fun h => (field_ok_mem ha (mem_strip h)).1 rfl),
    digitsValue_natDigits, strip_padField, strip_padField]
  have hi : strip (strip l.algo) = strip l.algo := List.rdropWhile_idempotent _ _
  rw [hi]

theorem rendered_no_newline (l : LegacyLine) (hwf : l.well_formed = true) :
    '\n' ∉ "i2c-".toList ++ natDigits l.bus ++ '\t' :: padField true 10 (strip l.typ) ++
        '\t' :: padField true 32 (strip l.name) ++ '\t' :: strip l.algo := by
  obtain ⟨hne, hd, ht, hn, ha⟩ := (well_formed_iff l).mp hwf
  intro hm
  simp only [List.mem_append, List.mem_cons] at hm
  have hpad : ∀ (w : Nat) (f : List Char), field_ok f = true →
      '\n' ∉ padField true w (strip f) := by
    intro w f hf hm
    rcases mem_padField hm with h | h
    · exact (field_ok_mem hf (mem_strip h)).2.1 rfl
    · exact absurd h (by decide)
  have hdig : '\n' ∉ natDigits l.bus := fun h => (digits_mem (natDigits_all _) h).2.1 rfl
  have hlit : '\n' ∉ "i2c-".toList := by decide
  have hnt : ¬ ('\n' = '\t') := by decide
  have halgo : '\n' ∉ strip l.algo := fun h => (field_ok_mem ha (mem_strip h)).2.1 rfl
  have h10 := hpad 10 _ ht
  have h32 := hpad 32 _ hn
  tauto

theorem print_adapters_proc (procfmt : Int) (recs : List i2c_adap) (t : i2c_adap)
    (rest : List i2c_adap) (hp : procfmt ≠ 0) (hnamed : ∀ a ∈ recs, a.name ≠ none)
    (ht : t.name = none) :
    print_adapters procfmt (some (recs ++ t :: rest)) =
      some (recs.map (fun a => (OutStream.stdout, proc_line a))) := by
  obtain ⟨out, h1, -, h3⟩ := print_loop_named procfmt recs t rest 0 hnamed ht
  simp [print_adapters, h1, hp, h3 hp]

theorem text_on_rendered (ls : List LegacyLine) :
    text_on OutStream.stdout
        ((ls.map LegacyLine.record).map (fun a => (OutStream.stdout, proc_line a))) =
      join_lines (ls.map (fun l =>
        "i2c-".toList ++ natDigits l.bus ++ '\t' :: padField true 10 (strip l.typ) ++
          '\t' :: padField true 32 (strip l.name) ++ '\t' :: strip l.algo)) := by
  induction ls with
  | nil => rfl
  | cons l ls ih =>
    simp only [List.map_cons, text_on, if_true, join_lines, ih, proc_line_record]
    simp

theorem text_on_stderr_rendered (recs : List i2c_adap) :
    text_on OutStream.stderr (recs.map (fun a => (OutStream.stdout, proc_line a))) = [] := by
  induction recs with
  | nil => rfl
  | cons a as ih => simp [text_on, ih]

theorem legacy_file_join (ls : List LegacyLine) :
    legacy_file ls = join_lines (ls.map LegacyLine.body) := by
  induction ls with
  | nil => rfl
  | cons l ls ih => simp [legacy_file, join_lines, LegacyLine.text, ih]

theorem read_back_lines_map (f : LegacyLine → List Char)
    (g : LegacyLine → Int × List Char × List Char × List Char) (ls : List LegacyLine)
    (h : ∀ l ∈ ls, read_back_line (f l) = some (g l)) :
    read_back_lines (ls.map f) = some (ls.map g) := by
  induction ls with
  | nil => rfl
  | cons l ls ih =>
    simp only [List.map_cons, read_back_lines, h l (List.mem_cons_self _ _),
      ih (fun m hm => h m (List.mem_cons_of_mem _ hm))]

/-- Claim C7, amended: for a file of well-formed legacy lines that each fit the
buffer and whose bus number is an `int`, the legacy path returns a list, its
rendering in proc-compatible mode writes to standard output only, and that
output read back as legacy-format lines gives, line by line and in order, the
bus number and the trimmed type, name and algo fields of the input: the same as
the input file read back. -/
theorem legacy_round_trip (indet : Nat → Int) (procfmt : Int) (ls : List LegacyLine)
    (hp : procfmt ≠ 0) (h : ∀ l ∈ ls, l.well_formed = true ∧ l.fits = true) :
    ∃ st out, gather_legacy indet (legacy_file ls) = Outcome.done st ∧
      print_adapters procfmt (some st.adapters) = some out ∧
      text_on OutStream.stderr out = [] ∧
      read_back (text_on OutStream.stdout out) =
        some (ls.map (fun l => ((l.bus : Int), strip l.typ, strip l.name, strip l.algo))) ∧
      read_back (legacy_file ls) = read_back (text_on OutStream.stdout out) := by
  obtain ⟨rest, hrest⟩ := state_of_terminated (ls.map LegacyLine.record)
  have hnamed : ∀ a ∈ ls.map LegacyLine.record, a.name ≠ none := by
    intro a ha
    obtain ⟨l, -, rfl⟩ := List.mem_map.mp ha
    simp [LegacyLine.record]
  have hout : read_back (text_on OutStream.stdout
      ((ls.map LegacyLine.record).map (fun a => (OutStream.stdout, proc_line a)))) =
      some (ls.map (fun l => ((l.bus : Int), strip l.typ, strip l.name, strip l.algo))) := by
    rw [text_on_rendered, read_back, split_on_join_lines]
    · exact read_back_lines_map _ _ ls (fun l hl => rendered_read_back l (h l hl).1)
    · intro b hb
      obtain ⟨l, hl, rfl⟩ := List.mem_map.mp hb
      exact rendered_no_newline l (h l hl).1
  have hin : read_back (legacy_file ls) =
      some (ls.map (fun l => ((l.bus : Int), strip l.typ, strip l.name, strip l.algo))) := by
    rw [legacy_file_join, read_back, split_on_join_lines]
    · exact read_back_lines_map _ _ ls (fun l hl => read_back_line_body l (h l hl).1)
    · intro b hb
      obtain ⟨l, hl, rfl⟩ := List.mem_map.mp hb
      exact fun hm => body_no_newline (h l hl).1 _ hm rfl
  refine ⟨state_of (ls.map LegacyLine.record), _, ?_, ?_, ?_, hout, ?_⟩
  · rw [gather_legacy, ← state_of_nil, legacy_loop_file indet ls [] _ (by omega) h,
      List.nil_append]
  · rw [hrest]
    exact print_adapters_proc procfmt _ zero_adap rest hp hnamed rfl
  · exact text_on_stderr_rendered _
  · rw [hin, hout]

/-- Claim C7, amended, at a file of one line of 83 bytes. -/
theorem legacy_round_trip_witness :
    ∃ st out, gather_legacy (fun _ => 0) (legacy_file [short_line]) = Outcome.done st ∧
      print_adapters 1 (some st.adapters) = some out ∧
      text_on OutStream.stderr out = [] ∧
      read_back (text_on OutStream.stdout out) =
        some [(0, "smbus".toList, "SMBus I801 adapter at 0400".toList,
               "Non-I2C SMBus adapter".toList)] ∧
      read_back (legacy_file [short_line]) = read_back (text_on OutStream.stdout out) :=
  legacy_round_trip (fun _ => 0) 1 [short_line] (by decide) (by decide)

set_option maxRecDepth 100000 in
/-- Claim C7 as stated fails: for a file of two well-formed lines, the second
of 110 bytes, the legacy path ends in a store through NULL and
`print_i2c_busses` renders nothing; and for a file of one well-formed line with
bus number 4294967296 the line rendered reads back with bus number 0. -/
theorem legacy_round_trip_counterexample :
    short_line.well_formed = true ∧ wide_line.well_formed = true ∧
    wide_line.text.length = 110 ∧
    big_line.well_formed = true ∧
    print_i2c_busses missing_world linux_flags 0 (fun _ => 0)
      { proc_bus_i2c := some (legacy_file [big_line]), sysfs_dir := none } 1 =
      Outcome.done [(OutStream.stdout,
        "i2c-0\ti2c       \tname                            \talgo\n".toList)] ∧
    read_back "i2c-0\ti2c       \tname                            \talgo\n".toList =
      some [(0, "i2c".toList, "name".toList, "algo".toList)] ∧
    read_back (legacy_file [big_line]) =
      some [(4294967296, "i2c".toList, "name".toList, "algo".toList)] ∧
    gather_legacy (fun _ => 0) (legacy_file [short_line, wide_line]) = Outcome.undefined ∧
    print_i2c_busses missing_world linux_flags 0 (fun _ => 0)
      { proc_bus_i2c := some (legacy_file [short_line, wide_line]), sysfs_dir := none } 1 =
      Outcome.undefined := by
  refine ⟨by decide, by decide, by decide, by decide, by decide, by decide, by decide,
    by decide, by decide⟩

/-- The list `gather_i2c_busses` returns is the records stored, all named,
followed by zeroed slots, and what it has written is read-error lines on
standard error. -/
theorem gather_i2c_busses_state_of (W : World) (F : FuncFlags) (errno0 : Nat)
    (indet : Nat → Int) (H : Host) (g : Gathered)
    (h : gather_i2c_busses W F errno0 indet H = Outcome.done g) :
    ∃ recs, g.st = state_of recs ∧ (∀ a ∈ recs, a.name ≠ none) ∧
      ∀ w ∈ g.out, w.1 = OutStream.stderr ∧ ∃ n, w.2 = n ++ ": read error\n".toList := by
  unfold gather_i2c_busses at h
  split at h
  · next content hc =>
    split at h
    · next st hst =>
      injection h with h
      subst h
      obtain ⟨rs, h1, h2⟩ := legacy_loop_state_of indet _ content [] st (by simp)
        (by rw [state_of_nil]; exact hst)
      exact ⟨rs, h1, h2, by simp⟩
    · cases h
    · cases h
  · split at h
    · injection h with h
      subst h
      exact ⟨[], rfl, by simp, by simp⟩
    · next sysfs entries hs =>
      split_ifs at h
      exact sysfs_loop_state_of W F errno0 sysfs indet entries
        { st := init_state, out := [], calls := [] } g [] rfl (by simp) (by simp) h

theorem read_error_ne (n : List Char) : n ++ ": read error\n".toList ≠ msg_no_busses := by
  intro h
  have h1 := congrArg (fun l => l.reverse.take 2) h
  simp only [List.reverse_append] at h1
  have h2 : (": read error\n".toList.reverse ++ n.reverse).take 2 = ['\n', 'r'] := rfl
  have h3 : msg_no_busses.reverse.take 2 = ['\n', 's'] := by decide
  rw [h2, h3] at h1
  revert h1
  decide

theorem text_on_stdout_nil (out : List Output) (h : ∀ w ∈ out, w.1 = OutStream.stderr) :
    text_on OutStream.stdout out = [] := by
  induction out with
  | nil => rfl
  | cons w ws ih =>
    have hw : ¬ (w.1 = OutStream.stdout) := by
      rw [h w (List.mem_cons_self _ _)]
      decide
    rw [text_on, if_neg hw]
    exact ih (fun x hx => h x (List.mem_cons_of_mem _ hx))

/-- Claim C9, amended: when discovery returns an empty list, `print_i2c_busses`
in human mode writes to standard error what discovery wrote, which is only the
read-error lines of unreadable name files, and then exactly the "No I2C busses
found" diagnostic, with no header and no per-adapter line; in proc-compatible
mode it writes only what discovery wrote; in both modes nothing goes to standard
output. When discovery returns a non-empty list, `print_i2c_busses` returns and
no text it writes is the diagnostic. -/
theorem print_empty_list (W : World) (F : FuncFlags) (errno0 : Nat) (indet : Nat → Int)
    (H : Host) (procfmt : Int) (g : Gathered)
    (hg : gather_i2c_busses W F errno0 indet H = Outcome.done g) :
    (∀ w ∈ g.out, w.1 = OutStream.stderr ∧ ∃ n, w.2 = n ++ ": read error\n".toList) ∧
    (g.st.count = 0 →
      print_i2c_busses W F errno0 indet H 0 =
        Outcome.done (g.out ++ [(OutStream.stderr, msg_no_busses)]) ∧
      text_on OutStream.stdout (g.out ++ [(OutStream.stderr, msg_no_busses)]) = []) ∧
    (g.st.count = 0 → procfmt ≠ 0 →
      print_i2c_busses W F errno0 indet H procfmt = Outcome.done g.out ∧
      text_on OutStream.stdout g.out = []) ∧
    (g.st.count ≠ 0 →
      ∃ out, print_i2c_busses W F errno0 indet H procfmt = Outcome.done out ∧
        ∀ w ∈ out, w.2 ≠ msg_no_busses) := by
  obtain ⟨recs, h1, h2, h3⟩ := gather_i2c_busses_state_of W F errno0 indet H g hg
  have hstd : text_on OutStream.stdout g.out = [] :=
    text_on_stdout_nil g.out (fun w hw => (h3 w hw).1)
  have hempty : g.st.count = 0 → g.st.adapters = zero_adap :: List.replicate 7 zero_adap := by
    intro hc
    rw [h1] at hc ⊢
    have hr : recs = [] := List.length_eq_zero.mp hc
    subst hr
    rfl
  refine ⟨h3, ?_, ?_, ?_⟩
  · intro hc
    refine ⟨?_, ?_⟩
    · simp [print_i2c_busses, hg, print_adapters, hempty hc, print_loop, zero_adap]
    · apply text_on_stdout_nil
      intro w hw
      rcases List.mem_append.mp hw with hw | hw
      · exact (h3 w hw).1
      · rw [List.mem_singleton] at hw
        rw [hw]
  · intro hc hp
    refine ⟨?_, hstd⟩
    simp [print_i2c_busses, hg, print_adapters, hempty hc, print_loop, zero_adap, hp]
  · intro hc
    obtain ⟨rest, hrest⟩ := state_of_terminated recs
    obtain ⟨out, h4, h5, -⟩ := print_loop_named procfmt recs zero_adap rest 0 h2 rfl
    have hlen : ¬ (0 + recs.length = 0 ∧ procfmt = 0) := by
      intro h
      rw [h1] at hc
      exact hc (by simpa [state_of] using h.1)
    refine ⟨g.out ++ out, ?_, ?_⟩
    · simp only [print_i2c_busses, hg, print_adapters, h1, hrest, h4, if_neg hlen,
        List.append_nil]
    · intro w hw heq
      rcases List.mem_append.mp hw with hw | hw
      · obtain ⟨-, n, hn⟩ := h3 w hw
        exact read_error_ne n (hn ▸ heq)
      · have hE : w.2.head? = some 'E' := by
          rw [heq]
          decide
        rcases h5 w hw with h | h <;> rw [hE] at h <;> revert h <;> decide

/-- Claim C9, amended, at a host whose only sysfs entry has an empty name file:
the read-error line of discovery, then the diagnostic, all on standard error. -/
theorem print_empty_list_witness :
    print_i2c_busses node3_world linux_flags 0 (fun _ => 0) unreadable_host 0 =
      Outcome.done ([(OutStream.stderr,
          "/sys/class/i2c-dev/i2c-0/name: read error\n".toList)] ++
        [(OutStream.stderr, msg_no_busses)]) ∧
    text_on OutStream.stdout ([(OutStream.stderr,
          "/sys/class/i2c-dev/i2c-0/name: read error\n".toList)] ++
        [(OutStream.stderr, msg_no_busses)]) = [] :=
  (print_empty_list node3_world linux_flags 0 (fun _ => 0) unreadable_host 0
    { st := init_state,
      out := [(OutStream.stderr, "/sys/class/i2c-dev/i2c-0/name: read error\n".toList)],
      calls := [] } (by decide)).2.1 (by decide)

/-- Claim C9 as stated fails: on a host whose only sysfs entry has an empty name
file the discovered list is empty, and `print_i2c_busses` in human mode writes
to standard error the read-error line of discovery before the diagnostic, so
what it writes there is not exactly the diagnostic. -/
theorem print_empty_list_counterexample :
    gather_i2c_busses node3_world linux_flags 0 (fun _ => 0) unreadable_host =
      Outcome.done
        { st := init_state,
          out := [(OutStream.stderr, "/sys/class/i2c-dev/i2c-0/name: read error\n".toList)],
          calls := [] } ∧
    init_state.count = 0 ∧
    print_i2c_busses node3_world linux_flags 0 (fun _ => 0) unreadable_host 0 =
      Outcome.done
        [(OutStream.stderr, "/sys/class/i2c-dev/i2c-0/name: read error\n".toList),
         (OutStream.stderr, msg_no_busses)] ∧
    text_on OutStream.stderr
        [(OutStream.stderr, "/sys/class/i2c-dev/i2c-0/name: read error\n".toList),
         (OutStream.stderr, msg_no_busses)] ≠ msg_no_busses := by
  refine ⟨by decide, by decide, by decide, by decide⟩

end I2CBusses
